import Mathlib

/-!
# Employee manager: a verification development

A shallow embedding of the Go packages `database` (employee.go, database.go)
and `handlers` (handler.go), followed by theorems about them.

Modelling conventions.

* Go `int` is a 64-bit signed integer.  Values are carried as `Int`; where the
  program does arithmetic (`(page-1)*perPage`) the result is wrapped with
  `wrapInt`.
* Go `float64` is `Float64` below: a NaN, the two infinities, or a finite
  value.  Finite values are carried as rationals (every finite float64 is
  one).  The program only copies salaries, compares them with `0` and
  converts them with `int(...)`; all three are exact on this carrier.
* Go `error` values are the type `Error`; `nil` is `Option.none`.
* `*sql.DB` is the record `Driver`: one field for each SQL statement that
  employee.go issues.  `postgres` is the behaviour of a healthy server on
  the table created by `Initialize`.
* A handler is a function from a request and a storage state to a response,
  the list of storage calls it made, and the new storage state.
-/

set_option autoImplicit false
set_option linter.dupNamespace false

namespace EmployeeManager

/-! ## Go primitives -/

/-- Go `float64`, as far as this program observes it. -/
inductive Float64 where
  | nan
  | posInf
  | negInf
  | finite (q : ℚ)
  deriving DecidableEq

namespace Float64

instance : Inhabited Float64 := ⟨finite 0⟩

/-- Go `x <= 0` on float64: false for NaN. -/
def le0 : Float64 → Bool
  | nan => false
  | posInf => false
  | negInf => true
  | finite q => decide (q ≤ 0)

/-- Go `x > 0` on float64: false for NaN. -/
def gt0 : Float64 → Bool
  | nan => false
  | posInf => true
  | negInf => false
  | finite q => decide (0 < q)

/-- Truncation of a rational toward zero. -/
def truncQ (q : ℚ) : Int := if 0 ≤ q then ⌊q⌋ else ⌈q⌉

end Float64

/-- Signed 64-bit wrap-around of Go `int` arithmetic. -/
def wrapInt (n : Int) : Int := (n + 2 ^ 63) % 2 ^ 64 - 2 ^ 63

/-- Go `int(x)` for a float64 `x`: truncation toward zero when the truncated
value is representable in `int`; otherwise the Go specification leaves the
result implementation-dependent, given here by `conv` (wrapped into `int`). -/
def goInt (conv : Float64 → Int) (x : Float64) : Int :=
  match x with
  | Float64.finite q =>
    if -(2 : Int) ^ 63 ≤ Float64.truncQ q ∧ Float64.truncQ q < (2 : Int) ^ 63 then
      Float64.truncQ q
    else wrapInt (conv x)
  | _ => wrapInt (conv x)

/-- Errors returned by `database/sql` and the driver underneath it. -/
inductive SqlError where
  /-- The sentinel `sql.ErrNoRows`. -/
  | ErrNoRows
  /-- Any other failure, with its text. -/
  | other (msg : String)
  deriving DecidableEq, Repr

/-- Go `error` values occurring in this program. -/
inductive Error where
  /-- The value of `handlers.ErrInvalidName`. -/
  | ErrInvalidName
  /-- The value of `handlers.ErrInvalidPosition`. -/
  | ErrInvalidPosition
  /-- The value of `handlers.ErrInvalidSalary`. -/
  | ErrInvalidSalary
  /-- The value of `errors.New("employee not found")` made in employee.go. -/
  | notFound
  /-- An error of `database/sql`, passed on as it is. -/
  | sql (e : SqlError)
  deriving DecidableEq, Repr

/-- The method `Error()` of an error value. -/
def Error.Error : Error → String
  | .ErrInvalidName => "invalid name"
  | .ErrInvalidPosition => "invalid position"
  | .ErrInvalidSalary => "invalid salary"
  | .notFound => "employee not found"
  | .sql .ErrNoRows => "sql: no rows in result set"
  | .sql (.other msg) => msg

/-! ## package database: the data model -/

/-- The struct `database.Employee`. -/
structure Employee where
  ID : Int
  Name : String
  Position : String
  Salary : Float64
  deriving DecidableEq

/-- The zero value of `Employee` (`var employee Employee`). -/
instance : Inhabited Employee := ⟨⟨0, "", "", Float64.finite 0⟩⟩

/-! ## package handlers: payload and validation -/

/-- The struct `handlers.EmployeeParams`. -/
structure EmployeeParams where
  Name : String
  Position : String
  Salary : Float64
  deriving DecidableEq

/-- The zero value of `EmployeeParams`. -/
instance : Inhabited EmployeeParams := ⟨⟨"", "", Float64.finite 0⟩⟩

/-- The method `EmployeeParams.toEmployee`: the ID is left at its zero value. -/
def EmployeeParams.toEmployee (e : EmployeeParams) : Employee :=
  { ID := 0, Name := e.Name, Position := e.Position, Salary := e.Salary }

/-- The method `EmployeeParams.validate`. -/
def EmployeeParams.validate (e : EmployeeParams) : Option Error :=
  if e.Name = "" then some Error.ErrInvalidName
  else if e.Position = "" then some Error.ErrInvalidPosition
  else if e.Salary.le0 then some Error.ErrInvalidSalary
  else none

/-! ## package database: the connection -/

/-- A Go slice: `none` is the nil slice, `some l` a non-nil slice holding `l`. -/
abbrev Slice (α : Type) := Option (List α)

namespace Slice

variable {α : Type}

/-- The elements of a slice; the nil slice has none. -/
def toList : Slice α → List α
  | none => []
  | some l => l

/-- Go `len(s)`. -/
def len (s : Slice α) : Nat := s.toList.length

/-- Go `append(s, x)`: the result is never nil. -/
def append (s : Slice α) (x : α) : Slice α := some (s.toList ++ [x])

end Slice

/-- What `*sql.Rows` yields to the loop `for rows.Next() { rows.Scan(...) }`:
for every row on which `Next` reports true, the outcome of `Scan` into the
five destinations (an employee and the `total` column); and the value of
`rows.Err()` once `Next` has reported false. -/
structure RowStream where
  items : List (Except SqlError (Employee × Int))
  err : Option SqlError

/-- The handle `*sql.DB`, reduced to the five statements employee.go issues.
`σ` is the state of whatever stands behind the handle. -/
structure Driver (σ : Type) where
  /-- The call `QueryRow(INSERT INTO employees (name, position, salary) VALUES
  ($1, $2, $3) RETURNING id).Scan(&employee.ID)`: the id scanned, or the error. -/
  insertReturningId : String → String → Float64 → σ → Except SqlError Int × σ
  /-- The call `QueryRow(SELECT id, name, position, salary FROM employees WHERE
  id=$1).Scan(...)` on a zero `Employee`: the variable after the call and the
  error. -/
  selectById : Int → σ → (Employee × Option SqlError) × σ
  /-- The call `Exec(UPDATE employees SET name=$1, position=$2, salary=$3 WHERE
  id=$4)`: the error of `Exec`, or else the outcome of `RowsAffected()`. -/
  execUpdate : String → String → Float64 → Int → σ → Except SqlError (Except SqlError Int) × σ
  /-- The call `Exec(DELETE FROM employees WHERE id=$1)`, likewise. -/
  execDelete : Int → σ → Except SqlError (Except SqlError Int) × σ
  /-- The call `Query(SELECT id, name, position, salary, COUNT(*) OVER() AS total
  FROM employees ORDER BY id LIMIT $1 OFFSET $2)`. -/
  queryList : Int → Int → σ → Except SqlError RowStream × σ

/-! ## package database: employeeDB -/

/-- The method `employeeDB.CreateEmployee`. -/
def CreateEmployee {σ : Type} (d : Driver σ) (employee : Employee) (s : σ) :
    (Employee × Option Error) × σ :=
  match d.insertReturningId employee.Name employee.Position employee.Salary s with
  | (.ok id, s1) => (({ employee with ID := id }, none), s1)
  | (.error e, s1) => ((employee, some (Error.sql e)), s1)

/-- The method `employeeDB.GetEmployeeByID`. -/
def GetEmployeeByID {σ : Type} (d : Driver σ) (id : Int) (s : σ) :
    (Employee × Option Error) × σ :=
  match d.selectById id s with
  | ((employee, some .ErrNoRows), s1) => ((employee, some Error.notFound), s1)
  | ((employee, some e), s1) => ((employee, some (Error.sql e)), s1)
  | ((employee, none), s1) => ((employee, none), s1)

/-- The method `employeeDB.UpdateEmployee`. -/
def UpdateEmployee {σ : Type} (d : Driver σ) (employee : Employee) (s : σ) :
    Option Error × σ :=
  match d.execUpdate employee.Name employee.Position employee.Salary employee.ID s with
  | (.error e, s1) => (some (Error.sql e), s1)
  | (.ok (.error _), s1) => (some Error.notFound, s1)
  | (.ok (.ok rowsAffected), s1) =>
    if rowsAffected = 0 then (some Error.notFound, s1) else (none, s1)

/-- The method `employeeDB.DeleteEmployee`. -/
def DeleteEmployee {σ : Type} (d : Driver σ) (id : Int) (s : σ) : Option Error × σ :=
  match d.execDelete id s with
  | (.error e, s1) => (some (Error.sql e), s1)
  | (.ok (.error _), s1) => (some Error.notFound, s1)
  | (.ok (.ok rowsAffected), s1) =>
    if rowsAffected = 0 then (some Error.notFound, s1) else (none, s1)

/-- The loop `for rows.Next() { ... }` of `ListEmployees`: `employees` and
`total` are the two variables the loop updates; a failing `Scan` leaves the
function at once. -/
def scanRows : List (Except SqlError (Employee × Int)) → Slice Employee → Int →
    Except SqlError (Slice Employee × Int)
  | [], employees, total => .ok (employees, total)
  | .error e :: _, _, _ => .error e
  | .ok (employee, t) :: rest, employees, _ => scanRows rest (employees.append employee) t

/-- The method `employeeDB.ListEmployees`.  `rows.Err()` is never consulted. -/
def ListEmployees {σ : Type} (d : Driver σ) (page perPage : Int) (s : σ) :
    (Slice Employee × Int × Option Error) × σ :=
  match d.queryList perPage (wrapInt (wrapInt (page - 1) * perPage)) s with
  | (.error e, s1) => ((none, 0, some (Error.sql e)), s1)
  | (.ok rows, s1) =>
    match scanRows rows.items none 0 with
    | .error e => ((none, 0, some (Error.sql e)), s1)
    | .ok (employees, total) => ((employees, total, none), s1)

/-! ## The table behind the connection -/

/-- The table `employees` of database.go (`id SERIAL PRIMARY KEY, name TEXT,
position TEXT, salary REAL`) together with the sequence behind `id`. -/
structure DB where
  /-- The rows, in no particular order. -/
  rows : List Employee
  /-- The last value the sequence has handed out; it starts at 0, so that the
  first id is 1. -/
  seq : Nat
  deriving DecidableEq

/-- The number of rows with the given id. -/
def DB.count (db : DB) (id : Int) : Int :=
  ((db.rows.filter (fun r => decide (r.ID = id))).length : Int)

/-- A healthy PostgreSQL server executing the five statements on the table, on
parameters that lie within the column types (`typedPostgres` adds the
rejection of those that do not).  `real` is the conversion of a float64
parameter to the column type `REAL`. -/
def postgres (real : Float64 → Float64) : Driver DB where
  insertReturningId name position salary db :=
    let id : Int := (db.seq : Int) + 1
    if db.rows.any (fun r => decide (r.ID = id)) then
      (.error (.other "duplicate key value violates unique constraint"),
        { db with seq := db.seq + 1 })
    else
      (.ok id, { rows := db.rows ++ [⟨id, name, position, real salary⟩], seq := db.seq + 1 })
  selectById id db :=
    match db.rows.find? (fun r => decide (r.ID = id)) with
    | some r => ((r, none), db)
    | none => ((default, some .ErrNoRows), db)
  execUpdate name position salary id db :=
    (.ok (.ok (db.count id)),
      { db with rows := db.rows.map (fun r =>
          if r.ID = id then ⟨r.ID, name, position, real salary⟩ else r) })
  execDelete id db :=
    (.ok (.ok (db.count id)),
      { db with rows := db.rows.filter (fun r => !decide (r.ID = id)) })
  queryList limit offset db :=
    if limit < 0 then (.error (.other "LIMIT must not be negative"), db)
    else if offset < 0 then (.error (.other "OFFSET must not be negative"), db)
    else
      let ordered := db.rows.insertionSort (fun a b => a.ID ≤ b.ID)
      let total : Int := db.rows.length
      let page := (ordered.drop offset.toNat).take limit.toNat
      (.ok { items := page.map (fun r => .ok (r, total)), err := none }, db)

/-! ## package strconv -/

namespace strconv

/-- The value of a decimal digit, if the character is one. -/
def digit (c : Char) : Option Nat :=
  if '0' ≤ c ∧ c ≤ '9' then some (c.toNat - '0'.toNat) else none

/-- The digit loop `n = n*10 + int(ch)`; any other character is a syntax
error. -/
def digits : List Char → Nat → Option Nat
  | [], n => some n
  | c :: cs, n =>
    match digit c with
    | some v => digits cs (n * 10 + v)
    | none => none

/-- The function `strconv.Atoi` of the Go standard library, on a 64-bit
platform: an optional sign followed by at least one decimal digit, the value
lying in the range of `int`; `none` when it returns an error. -/
def Atoi (s : String) : Option Int :=
  match s.toList with
  | [] => none
  | '-' :: cs =>
    if cs = [] then none
    else (digits cs 0).bind (fun n => if n ≤ 2 ^ 63 then some (-(n : Int)) else none)
  | '+' :: cs =>
    if cs = [] then none
    else (digits cs 0).bind (fun n => if n < 2 ^ 63 then some (n : Int) else none)
  | cs => (digits cs 0).bind (fun n => if n < 2 ^ 63 then some (n : Int) else none)

/-- The function `strconv.Itoa`: the decimal text of an `int`. -/
def Itoa (n : Int) : String :=
  match n with
  | Int.ofNat m => Nat.repr m
  | Int.negSucc m => "-" ++ Nat.repr (m + 1)

end strconv

/-! ## package handlers: requests and responses -/

/-- The struct `handlers.EmployeeResponse`. -/
structure EmployeeResponse where
  ID : Int
  Name : String
  Position : String
  Salary : Int
  deriving DecidableEq

/-- The zero value of `EmployeeResponse`. -/
instance : Inhabited EmployeeResponse := ⟨⟨0, "", "", 0⟩⟩

/-- The struct `handlers.ListEmployeesResponse`. -/
structure ListEmployeesResponse where
  Employees : Slice EmployeeResponse
  Total : Int
  deriving DecidableEq

/-- The function `toEmployeeResponse`; `conv` is explained at `goInt`. -/
def toEmployeeResponse (conv : Float64 → Int) (emp : Employee) : EmployeeResponse :=
  { ID := emp.ID, Name := emp.Name, Position := emp.Position, Salary := goInt conv emp.Salary }

/-- What a handler reads of an `*http.Request`. -/
structure Request where
  /-- The field `r.URL.Path`. -/
  Path : String
  /-- The value `chi.URLParam(r, "id")`. -/
  id : String
  /-- The value `r.URL.Query().Get("page")`; empty when the parameter is absent. -/
  page : String
  /-- The value `r.URL.Query().Get("per_page")`; empty when absent. -/
  per_page : String
  /-- The outcome of `json.NewDecoder(r.Body).Decode(&params)` on a zero
  `EmployeeParams`: `none` when it returns an error, else the decoded value. -/
  decoded : Option EmployeeParams

/-- What is written to the `http.ResponseWriter` after the headers. -/
inductive Body where
  /-- Nothing is written. -/
  | empty
  /-- One line of plain text, as `fmt.Fprintln(w, s)` writes it. -/
  | text (s : String)
  /-- The output of `json.NewEncoder(w).Encode` on an `EmployeeResponse`. -/
  | employee (e : EmployeeResponse)
  /-- The output of `json.NewEncoder(w).Encode` on a `ListEmployeesResponse`. -/
  | list (l : ListEmployeesResponse)
  deriving DecidableEq

/-- What a handler leaves in the `http.ResponseWriter`. -/
structure Response where
  status : Nat
  headers : List (String × String)
  body : Body
  deriving DecidableEq

/-- The function `http.Error(w, msg, code)` on a fresh writer: two headers, the
status, and the message as one line of text. -/
def httpError (msg : String) (code : Nat) : Response :=
  { status := code
    headers := [("Content-Type", "text/plain; charset=utf-8"),
                ("X-Content-Type-Options", "nosniff")]
    body := Body.text msg }

/-- The interface `database.EmployeeDB`, over a storage state `σ`. -/
structure EmployeeDB (σ : Type) where
  CreateEmployee : Employee → σ → (Employee × Option Error) × σ
  GetEmployeeByID : Int → σ → (Employee × Option Error) × σ
  UpdateEmployee : Employee → σ → Option Error × σ
  DeleteEmployee : Int → σ → Option Error × σ
  ListEmployees : Int → Int → σ → (Slice Employee × Int × Option Error) × σ

/-- The function `database.NewEmployee`. -/
def NewEmployee {σ : Type} (db : Driver σ) : EmployeeDB σ where
  CreateEmployee := EmployeeManager.CreateEmployee db
  GetEmployeeByID := EmployeeManager.GetEmployeeByID db
  UpdateEmployee := EmployeeManager.UpdateEmployee db
  DeleteEmployee := EmployeeManager.DeleteEmployee db
  ListEmployees := EmployeeManager.ListEmployees db

/-- One invocation of a method of `database.EmployeeDB`, with its arguments. -/
inductive Call where
  | create (employee : Employee)
  | get (id : Int)
  | update (employee : Employee)
  | delete (id : Int)
  | list (page perPage : Int)
  deriving DecidableEq

/-- The outcome of running a handler. -/
structure Result (σ : Type) where
  /-- The response written. -/
  response : Response
  /-- The storage calls made, in order. -/
  calls : List Call
  /-- The storage state afterwards. -/
  state : σ

/-! ## package handlers: the handlers -/

/-- The method `handler.CreateEmployeeHandler`. -/
def CreateEmployeeHandler {σ : Type} (conv : Float64 → Int) (h : EmployeeDB σ)
    (r : Request) (s : σ) : Result σ :=
  match r.decoded with
  | none => ⟨httpError "Invalid request payload" 400, [], s⟩
  | some employee =>
    match employee.validate with
    | some err => ⟨httpError err.Error 400, [], s⟩
    | none =>
      match h.CreateEmployee employee.toEmployee s with
      | ((_, some err), s1) =>
        ⟨httpError err.Error 500, [Call.create employee.toEmployee], s1⟩
      | ((emp, none), s1) =>
        ⟨{ status := 201
           headers := [("Content-Type", "application/json"),
                       ("Location", r.Path ++ "/" ++ strconv.Itoa emp.ID)]
           body := Body.employee (toEmployeeResponse conv emp) },
         [Call.create employee.toEmployee], s1⟩

/-- The method `handler.GetEmployeeHandler`. -/
def GetEmployeeHandler {σ : Type} (conv : Float64 → Int) (h : EmployeeDB σ)
    (r : Request) (s : σ) : Result σ :=
  match strconv.Atoi r.id with
  | none => ⟨httpError "Invalid employee ID" 400, [], s⟩
  | some id =>
    if id ≤ 0 then ⟨httpError "Invalid employee ID" 400, [], s⟩
    else
      match h.GetEmployeeByID id s with
      | ((_, some _), s1) => ⟨httpError "Employee not found" 404, [Call.get id], s1⟩
      | ((employee, none), s1) =>
        ⟨{ status := 200
           headers := [("Content-Type", "application/json")]
           body := Body.employee (toEmployeeResponse conv employee) },
         [Call.get id], s1⟩

/-- The method `handler.UpdateEmployeeHandler`. -/
def UpdateEmployeeHandler {σ : Type} (conv : Float64 → Int) (h : EmployeeDB σ)
    (r : Request) (s : σ) : Result σ :=
  match strconv.Atoi r.id with
  | none => ⟨httpError "Invalid employee ID" 400, [], s⟩
  | some id =>
    if id ≤ 0 then ⟨httpError "Invalid employee ID" 400, [], s⟩
    else
      match r.decoded with
      | none => ⟨httpError "Invalid request payload" 400, [], s⟩
      | some emp =>
        match emp.validate with
        | some err => ⟨httpError err.Error 400, [], s⟩
        | none =>
          let empToUpdate : Employee := { emp.toEmployee with ID := id }
          match h.UpdateEmployee empToUpdate s with
          | (some _, s1) => ⟨httpError "Employee not found" 404, [Call.update empToUpdate], s1⟩
          | (none, s1) =>
            ⟨{ status := 200
               headers := [("Content-Type", "application/json")]
               body := Body.employee (toEmployeeResponse conv empToUpdate) },
             [Call.update empToUpdate], s1⟩

/-- The method `handler.DeleteEmployeeHandler`. -/
def DeleteEmployeeHandler {σ : Type} (h : EmployeeDB σ) (r : Request) (s : σ) : Result σ :=
  match strconv.Atoi r.id with
  | none => ⟨httpError "Invalid employee ID" 400, [], s⟩
  | some id =>
    if id ≤ 0 then ⟨httpError "Invalid employee ID" 400, [], s⟩
    else
      match h.DeleteEmployee id s with
      | (some _, s1) => ⟨httpError "Employee not found" 404, [Call.delete id], s1⟩
      | (none, s1) => ⟨{ status := 204, headers := [], body := Body.empty }, [Call.delete id], s1⟩

/-- The loop `for i, emp := range employees { response.Employees[i] = ... }`
on the slice made by `make([]EmployeeResponse, len(employees))`. -/
def fillResponses (conv : Float64 → Int) (employees : List Employee) : List EmployeeResponse :=
  employees.enum.foldl (fun acc p => acc.set p.1 (toEmployeeResponse conv p.2))
    (List.replicate employees.length default)

/-- The method `handler.ListEmployeesHandler`. -/
def ListEmployeesHandler {σ : Type} (conv : Float64 → Int) (h : EmployeeDB σ)
    (r : Request) (s : σ) : Result σ :=
  let page : Int :=
    match strconv.Atoi r.page with
    | none => 1
    | some page => if page ≤ 0 then 1 else page
  let perPage : Int :=
    match strconv.Atoi r.per_page with
    | none => 10
    | some perPage => if perPage ≤ 0 then 10 else perPage
  match h.ListEmployees page perPage s with
  | ((_, _, some err), s1) => ⟨httpError err.Error 500, [Call.list page perPage], s1⟩
  | ((employees, total, none), s1) =>
    ⟨{ status := 200
       headers := [("Content-Type", "application/json")]
       body := Body.list { Employees := some (fillResponses conv employees.toList)
                           Total := total } },
     [Call.list page perPage], s1⟩

/-! ## Concrete inputs used to evaluate the definitions -/

/-- Go `int(x)` on amd64 for a NaN or out-of-range `x`: the instruction
CVTTSD2SQ yields the smallest `int`. -/
def amd64 : Float64 → Int := fun _ => -(2 : Int) ^ 63

/-- The payload of the repository's handler tests. -/
def johnDoe : EmployeeParams := ⟨"John Doe", "Engineer", Float64.finite 5000⟩

/-- A table holding the one row of the repository's database tests. -/
def oneRow : DB := ⟨[⟨1, "John Doe", "Engineer", Float64.finite 50000⟩], 1⟩

/-- A table of five rows with distinct ids, stored out of order. -/
def fiveRows : DB :=
  ⟨[⟨3, "Cy", "Clerk", Float64.finite 30000⟩, ⟨1, "Al", "Engineer", Float64.finite 50000⟩,
    ⟨5, "Ed", "Analyst", Float64.finite 45000⟩, ⟨2, "Bo", "Manager", Float64.finite 70000⟩,
    ⟨4, "Di", "Director", Float64.finite 90000⟩], 5⟩

/-- A connection on which `Exec` succeeds and the `RowsAffected()` of its
result fails, as with a driver that does not report row counts. -/
def noRowCount : Driver Unit where
  insertReturningId _ _ _ s := (.ok 1, s)
  selectById _ s := ((default, some .ErrNoRows), s)
  execUpdate _ _ _ _ s := (.ok (.error (.other "no RowsAffected available")), s)
  execDelete _ s := (.ok (.error (.other "no RowsAffected available")), s)
  queryList _ _ s := (.ok ⟨[], none⟩, s)

/-- A connection that records the `LIMIT` and `OFFSET` arguments of every
`Query` and returns no rows, in the way `sqlmock` checks `WithArgs(perPage,
(page-1)*perPage)` in the repository's test. -/
def recorder : Driver (List (Int × Int)) where
  insertReturningId _ _ _ log := (.ok 1, log)
  selectById _ log := ((default, some .ErrNoRows), log)
  execUpdate _ _ _ _ log := (.ok (.ok 0), log)
  execDelete _ log := (.ok (.ok 0), log)
  queryList limit offset log := (.ok ⟨[], none⟩, log ++ [(limit, offset)])


/-! ## The column type REAL -/

/-- The integer nearest to a rational, a tie going to the even one. -/
def roundHalfEven (x : ℚ) : Int :=
  if x - ⌊x⌋ < 1 / 2 then ⌊x⌋
  else if 1 / 2 < x - ⌊x⌋ then ⌊x⌋ + 1
  else if ⌊x⌋ % 2 = 0 then ⌊x⌋ else ⌊x⌋ + 1

/-- The binary exponent of a positive `a` in single precision: the least
`e`, from the given one upward, with `a < 2^(e+1)`, found in at most `fuel`
steps. -/
def singleExponent (a : ℚ) : Nat → Int → Int
  | 0, e => e
  | fuel + 1, e => if a < 2 ^ (e + 1) then e else singleExponent a fuel (e + 1)

/-- The value a `REAL` column (IEEE single precision) holds for a float64
parameter: the nearest number with a 24-bit significand and an exponent from
-126, a tie going to the even significand.  A magnitude too large for the type,
which the server rejects, is sent to the infinity. -/
def real4 : Float64 → Float64
  | Float64.finite q =>
    if q = 0 then Float64.finite 0
    else
      let e := singleExponent |q| 254 (-126)
      let ulp : ℚ := 2 ^ (e - 23)
      let m : ℚ := roundHalfEven (|q| / ulp) * ulp
      if (2 : ℚ) ^ (128 : Int) ≤ m then (if 0 < q then Float64.posInf else Float64.negInf)
      else Float64.finite (if 0 < q then m else -m)
  | x => x


/-- A connection whose `Query` succeeds, delivers one row of a table of two, and
then loses the result stream: `Next` reports false and `rows.Err()` holds the
cause. -/
def brokenStream : Driver Unit where
  insertReturningId _ _ _ s := (.ok 1, s)
  selectById _ s := ((default, some .ErrNoRows), s)
  execUpdate _ _ _ _ s := (.ok (.ok 0), s)
  execDelete _ s := (.ok (.ok 0), s)
  queryList _ _ s :=
    (.ok ⟨[.ok (⟨1, "John Doe", "Engineer", Float64.finite 50000⟩, 2)],
      some (.other "unexpected EOF")⟩, s)


/-! ## The column types enforced -/

/-- Whether an `int` parameter fits the column type of `id`: `SERIAL`, a
32-bit integer. -/
def fitsInteger (n : Int) : Bool := decide (-(2 : Int) ^ 31 ≤ n ∧ n < (2 : Int) ^ 31)

/-- Whether the column type `REAL` can hold a float64 parameter: a finite
value has to round to a single-precision number without overflow and, unless
it is zero, without becoming zero. -/
def fitsReal : Float64 → Bool
  | Float64.finite q =>
    decide (q = 0 ∨ ((q < -(1 / 2 ^ 150) ∨ 1 / 2 ^ 150 < q) ∧
      -(2 ^ 128 - 2 ^ 103) < q ∧ q < 2 ^ 128 - 2 ^ 103))
  | _ => true

/-- The server of `postgres` with the column types of database.go enforced on
the parameters of a statement.  An id parameter outside the 32-bit `id`
column, a salary parameter that `REAL` cannot hold and a sequence value
beyond the 32-bit range make the statement fail with an error and leave the
table as it was; otherwise the statement runs as in `postgres`.  `LIMIT` and
`OFFSET` are 64-bit. -/
def typedPostgres (real : Float64 → Float64) : Driver DB where
  insertReturningId name position salary db :=
    if !fitsReal salary then (.error (.other "value out of range for type real"), db)
    else if !fitsInteger ((db.seq : Int) + 1) then
      (.error (.other "nextval: reached maximum value of sequence"), db)
    else (postgres real).insertReturningId name position salary db
  selectById id db :=
    if !fitsInteger id then
      ((default, some (.other "value out of range for type integer")), db)
    else (postgres real).selectById id db
  execUpdate name position salary id db :=
    if !fitsInteger id then (.error (.other "value out of range for type integer"), db)
    else if !fitsReal salary then (.error (.other "value out of range for type real"), db)
    else (postgres real).execUpdate name position salary id db
  execDelete id db :=
    if !fitsInteger id then (.error (.other "value out of range for type integer"), db)
    else (postgres real).execDelete id db
  queryList limit offset db := (postgres real).queryList limit offset db

/-! ## The routes of main.go -/

/-- What is left of `s` behind the leading `p`, if `s` begins with `p`. -/
def after : List Char → List Char → Option (List Char)
  | [], s => some s
  | _ :: _, [] => none
  | c :: p, d :: s => if c = d then after p s else none

/-- The router of main.go on a `GET` request: the value of the URL parameter
`id` with which `GetEmployeeHandler` is reached, and `none` when the path goes
to another handler or is answered with 404.  The handler is registered by
`r.Route("/api/v1/employees", ...)`, `r.Route("/{id}", ...)` and `r.Get("/",
...)`; it is reached by `/api/v1/employees/{id}` with or without a trailing
slash, where `{id}` is one non-empty path segment. -/
def getEmployeeRoute (path : String) : Option String :=
  match after "/api/v1/employees/".toList path.toList with
  | none => none
  | some rest =>
    if rest.takeWhile (fun c => c != '/') ≠ [] ∧
        (rest.dropWhile (fun c => c != '/') = [] ∨ rest.dropWhile (fun c => c != '/') = ['/'])
    then some (String.mk (rest.takeWhile (fun c => c != '/')))
    else none

/-! ## Theorems -/

/-- C1 (counterexample).  A payload with a non-empty name, a non-empty
position and the salary NaN passes `validate`, although its salary is not
greater than zero: `NaN <= 0` is false in Go, and so is `NaN > 0`. -/
theorem validate_accepts_nan :
    (EmployeeParams.mk "a" "b" Float64.nan).validate = none ∧
    (EmployeeParams.mk "a" "b" Float64.nan).Salary.gt0 = false := by
  constructor
  · decide
  · rfl

/-- C1 (amended).  For every payload whose salary is not NaN, `validate`
returns no error exactly when the name is non-empty, the position is non-empty
and the salary is greater than zero; otherwise it returns the error of the
first failing check, in the order name, position, salary. -/
theorem validate_spec (p : EmployeeParams) (hnan : p.Salary ≠ Float64.nan) :
    (p.validate = none ↔ (p.Name ≠ "" ∧ p.Position ≠ "" ∧ p.Salary.gt0 = true)) ∧
    (p.Name = "" → p.validate = some Error.ErrInvalidName) ∧
    (p.Name ≠ "" → p.Position = "" → p.validate = some Error.ErrInvalidPosition) ∧
    (p.Name ≠ "" → p.Position ≠ "" → p.Salary.gt0 = false →
      p.validate = some Error.ErrInvalidSalary) := by
  obtain ⟨n, pos, s⟩ := p
  have hs : s.gt0 = !s.le0 := by
    cases s with
    | nan => exact absurd rfl hnan
    | posInf => rfl
    | negInf => rfl
    | finite q =>
      simp only [Float64.gt0, Float64.le0]
      by_cases h : q ≤ 0
      · simp [h, not_lt.mpr h]
      · simp [h, not_le.mp h]
  simp only [EmployeeParams.validate]
  by_cases h1 : n = "" <;> by_cases h2 : pos = "" <;> cases h3 : s.le0 <;>
    simp [h1, h2, h3, hs]

/-- C1 (witness): `validate_spec` at the payload of the repository's test. -/
theorem validate_spec_witness :
    (EmployeeParams.mk "John Doe" "Engineer" (Float64.finite 5000)).Salary ≠ Float64.nan ∧
    (((EmployeeParams.mk "John Doe" "Engineer" (Float64.finite 5000)).validate = none ↔
      ((EmployeeParams.mk "John Doe" "Engineer" (Float64.finite 5000)).Name ≠ "" ∧
       (EmployeeParams.mk "John Doe" "Engineer" (Float64.finite 5000)).Position ≠ "" ∧
       (EmployeeParams.mk "John Doe" "Engineer" (Float64.finite 5000)).Salary.gt0 = true))) :=
  ⟨by simp, (validate_spec _ (by simp)).1⟩

/-! ### Helper lemmas -/

theorem wrapInt_of_range (n : Int) (h1 : -(2 : Int) ^ 63 ≤ n) (h2 : n < (2 : Int) ^ 63) :
    wrapInt n = n := by
  unfold wrapInt
  norm_num at h1 h2 ⊢
  omega

theorem wrapInt_lt (n : Int) : wrapInt n < (2 : Int) ^ 63 := by
  unfold wrapInt
  norm_num
  omega

theorem goInt_lt (conv : Float64 → Int) (x : Float64) : goInt conv x < (2 : Int) ^ 63 := by
  unfold goInt
  split
  · split_ifs with h
    · exact h.2
    · exact wrapInt_lt _
  · exact wrapInt_lt _

/-! `Atoi` reads back what `Itoa` prints. -/

namespace strconv

theorem digit_digitChar (k : Nat) (h : k < 10) : digit (Nat.digitChar k) = some k := by
  interval_cases k <;> rfl

theorem digitChar_ne_sign (k : Nat) (h : k < 10) :
    Nat.digitChar k ≠ '-' ∧ Nat.digitChar k ≠ '+' := by
  interval_cases k <;> decide

theorem digits_append (xs ys : List Char) (acc : Nat) :
    digits (xs ++ ys) acc = (digits xs acc).bind (fun n => digits ys n) := by
  induction xs generalizing acc with
  | nil => rfl
  | cons c cs ih =>
    simp only [List.cons_append, digits]
    cases digit c with
    | none => rfl
    | some v => exact ih _

theorem toDigitsCore_append (fuel n : Nat) (ds : List Char) :
    Nat.toDigitsCore 10 fuel n ds = Nat.toDigitsCore 10 fuel n [] ++ ds := by
  induction fuel generalizing n ds with
  | zero => rfl
  | succ f ih =>
    simp only [Nat.toDigitsCore]
    split_ifs
    · rfl
    · rw [ih (n / 10) (Nat.digitChar (n % 10) :: ds), ih (n / 10) [Nat.digitChar (n % 10)]]
      simp

theorem digits_toDigitsCore (fuel n : Nat) (h : n < fuel) :
    digits (Nat.toDigitsCore 10 fuel n []) 0 = some n := by
  induction fuel generalizing n with
  | zero => omega
  | succ f ih =>
    have hdig := digit_digitChar (n % 10) (Nat.mod_lt _ (by decide))
    simp only [Nat.toDigitsCore]
    split_ifs with h0
    · simp only [digits, hdig]
      congr 1
      omega
    · rw [toDigitsCore_append, digits_append, ih (n / 10) (by omega)]
      simp only [Option.some_bind, digits, hdig]
      congr 1
      omega

theorem toDigitsCore_head (fuel n : Nat) :
    ∃ k, k < 10 ∧ ∃ cs, Nat.toDigitsCore 10 (fuel + 1) n [] = Nat.digitChar k :: cs := by
  induction fuel generalizing n with
  | zero =>
    simp only [Nat.toDigitsCore]
    split_ifs <;> exact ⟨n % 10, Nat.mod_lt _ (by decide), [], rfl⟩
  | succ f ih =>
    rw [Nat.toDigitsCore]
    split_ifs
    · exact ⟨n % 10, Nat.mod_lt _ (by decide), [], rfl⟩
    · obtain ⟨k, hk, cs, hcs⟩ := ih (n / 10)
      rw [toDigitsCore_append, hcs]
      exact ⟨k, hk, cs ++ [Nat.digitChar (n % 10)], rfl⟩

theorem Atoi_Itoa (n : Int) (h0 : 0 ≤ n) (h1 : n < (2 : Int) ^ 63) :
    Atoi (Itoa n) = some n := by
  obtain ⟨m, rfl⟩ := Int.eq_ofNat_of_zero_le h0
  have hm : m < 9223372036854775808 := by
    norm_num at h1
    exact_mod_cast h1
  obtain ⟨k, hk, cs, hcs⟩ := toDigitsCore_head m m
  have hd : digits (Nat.digitChar k :: cs) 0 = some m := by
    rw [← hcs]; exact digits_toDigitsCore (m + 1) m (by omega)
  have hlist : (Itoa (m : Int)).toList = Nat.digitChar k :: cs := by
    show (Nat.repr m).toList = _
    simp only [Nat.repr, Nat.toDigits, hcs, List.asString]
    rfl
  obtain ⟨hminus, hplus⟩ := digitChar_ne_sign k hk
  unfold Atoi
  rw [hlist]
  split
  · simp_all
  · simp_all
  · simp_all
  · simp [hd, hm]

end strconv

/-! ### C8: the `Location` header and the router -/

theorem after_append (p s : List Char) : after p (p ++ s) = some s := by
  induction p with
  | nil => cases s <;> rfl
  | cons c p ih => simp [after, ih]

namespace strconv

theorem digitChar_ne_slash (k : Nat) (h : k < 10) : Nat.digitChar k ≠ '/' := by
  interval_cases k <;> decide

theorem toDigitsCore_digits (fuel n : Nat) (ds : List Char) :
    ∀ c ∈ Nat.toDigitsCore 10 fuel n ds, (∃ k, k < 10 ∧ c = Nat.digitChar k) ∨ c ∈ ds := by
  induction fuel generalizing n ds with
  | zero => intro c hc; exact Or.inr hc
  | succ f ih =>
    intro c hc
    simp only [Nat.toDigitsCore] at hc
    split_ifs at hc
    · rcases List.mem_cons.mp hc with h | h
      · exact Or.inl ⟨n % 10, Nat.mod_lt _ (by decide), h⟩
      · exact Or.inr h
    · rcases ih (n / 10) _ c hc with h | h
      · exact Or.inl h
      · rcases List.mem_cons.mp h with h | h
        · exact Or.inl ⟨n % 10, Nat.mod_lt _ (by decide), h⟩
        · exact Or.inr h

theorem Itoa_no_slash (n : Int) (h0 : 0 ≤ n) : ∀ c ∈ (Itoa n).toList, c ≠ '/' := by
  obtain ⟨m, rfl⟩ := Int.eq_ofNat_of_zero_le h0
  intro c hc
  have hc2 : c ∈ Nat.toDigitsCore 10 (m + 1) m [] := hc
  rcases toDigitsCore_digits (m + 1) m [] c hc2 with ⟨k, hk, rfl⟩ | h
  · exact digitChar_ne_slash k hk
  · simp at h

theorem Itoa_ne_nil (n : Int) (h0 : 0 ≤ n) : (Itoa n).toList ≠ [] := by
  obtain ⟨m, rfl⟩ := Int.eq_ofNat_of_zero_le h0
  obtain ⟨k, _, cs, hcs⟩ := toDigitsCore_head m m
  have : (Itoa (m : Int)).toList = Nat.digitChar k :: cs := hcs
  rw [this]
  simp

end strconv

theorem getEmployeeRoute_location (id : Int) (h0 : 0 ≤ id) :
    getEmployeeRoute ("/api/v1/employees" ++ "/" ++ strconv.Itoa id) = some (strconv.Itoa id) := by
  have hlist : ("/api/v1/employees" ++ "/" ++ strconv.Itoa id).toList =
      "/api/v1/employees/".toList ++ (strconv.Itoa id).toList := by
    simp [String.toList, String.data_append]
  have hall := strconv.Itoa_no_slash id h0
  have htake : (strconv.Itoa id).toList.takeWhile (fun c => c != '/') =
      (strconv.Itoa id).toList := by
    rw [List.takeWhile_eq_self_iff]
    intro c hc
    simpa using hall c hc
  have hdrop : (strconv.Itoa id).toList.dropWhile (fun c => c != '/') = [] := by
    rw [List.dropWhile_eq_nil_iff]
    intro c hc
    simpa using hall c hc
  unfold getEmployeeRoute
  rw [hlist, after_append]
  simp only [htake, hdrop]
  rw [if_pos ⟨strconv.Itoa_ne_nil id h0, Or.inl trivial⟩]
  rfl

theorem validate_some_cases(p : EmployeeParams) (err : Error) (h : p.validate = some err) :
    err = Error.ErrInvalidName ∨ err = Error.ErrInvalidPosition ∨
      err = Error.ErrInvalidSalary := by
  unfold EmployeeParams.validate at h
  split_ifs at h <;> simp_all

theorem validate_isSome_of_invalid (p : EmployeeParams)
    (h : p.Name = "" ∨ p.Position = "" ∨ p.Salary.le0 = true) :
    ∃ err, p.validate = some err := by
  unfold EmployeeParams.validate
  split_ifs <;> simp_all

/-! ### C2 -/

/-- C2.  When the decoded body has an empty name, an empty position or a
salary `<= 0`, `CreateEmployeeHandler`, and `UpdateEmployeeHandler` on a path
id that parses to a positive integer, answer 400 with the message of the
validation error as plain text, make no storage call and leave the storage
state as it was. -/
theorem invalid_body_rejected_before_storage {σ : Type} (conv : Float64 → Int)
    (h : EmployeeDB σ) (r : Request) (s : σ) (p : EmployeeParams)
    (hbody : r.decoded = some p)
    (hbad : p.Name = "" ∨ p.Position = "" ∨ p.Salary.le0 = true) :
    ∃ err, p.validate = some err ∧
      (CreateEmployeeHandler conv h r s).response = httpError err.Error 400 ∧
      (CreateEmployeeHandler conv h r s).response.status = 400 ∧
      (CreateEmployeeHandler conv h r s).response.body = Body.text err.Error ∧
      (CreateEmployeeHandler conv h r s).calls = [] ∧
      (CreateEmployeeHandler conv h r s).state = s ∧
      ∀ id : Int, strconv.Atoi r.id = some id → 0 < id →
        (UpdateEmployeeHandler conv h r s).response = httpError err.Error 400 ∧
        (UpdateEmployeeHandler conv h r s).response.status = 400 ∧
        (UpdateEmployeeHandler conv h r s).response.body = Body.text err.Error ∧
        (UpdateEmployeeHandler conv h r s).calls = [] ∧
        (UpdateEmployeeHandler conv h r s).state = s := by
  obtain ⟨err, herr⟩ := validate_isSome_of_invalid p hbad
  refine ⟨err, herr, ?_⟩
  have hc : CreateEmployeeHandler conv h r s = ⟨httpError err.Error 400, [], s⟩ := by
    simp only [CreateEmployeeHandler, hbody, herr]
  refine ⟨by rw [hc], by rw [hc]; rfl, by rw [hc]; rfl, by rw [hc], by rw [hc], ?_⟩
  intro id hid hpos
  have hu : UpdateEmployeeHandler conv h r s = ⟨httpError err.Error 400, [], s⟩ := by
    simp only [UpdateEmployeeHandler, hid, hbody, herr, not_le.mpr hpos, if_false]
  exact ⟨by rw [hu], by rw [hu]; rfl, by rw [hu]; rfl, by rw [hu], by rw [hu]⟩

/-- C2 (witness): the test case "invalid salary", on the repository's own
storage over a one-row table. -/
theorem invalid_body_rejected_before_storage_witness :
    ∃ err, (EmployeeParams.mk "John Doe" "Engineer" (Float64.finite 0)).validate = some err ∧
      (CreateEmployeeHandler amd64 (NewEmployee (postgres id))
        ⟨"/api/v1/employees", "1", "", "", some ⟨"John Doe", "Engineer", Float64.finite 0⟩⟩
        oneRow).response = httpError err.Error 400 :=
  let ⟨err, h1, h2, _⟩ := invalid_body_rejected_before_storage amd64
    (NewEmployee (postgres id))
    ⟨"/api/v1/employees", "1", "", "", some ⟨"John Doe", "Engineer", Float64.finite 0⟩⟩
    oneRow ⟨"John Doe", "Engineer", Float64.finite 0⟩ rfl (Or.inr (Or.inr (by decide)))
  ⟨err, h1, h2⟩

/-! ### C3 -/

/-- C3 (the code at a page beyond the data).  On a healthy server, for
`page >= 1` and `perPage >= 1` whose offset `(page-1)*perPage` does not
overflow and is at least the number of rows, `ListEmployees` returns the nil
slice, no error, and the total `0`, whatever the number of rows in the table:
the variable `total` is only ever assigned inside the row loop. -/
theorem ListEmployees_beyond_data_total_zero (real : Float64 → Float64) (db : DB)
    (page perPage : Int) (hpage : 1 ≤ page) (hper : 1 ≤ perPage)
    (hfit : (page - 1) * perPage < (2 : Int) ^ 63)
    (hbeyond : (db.rows.length : Int) ≤ (page - 1) * perPage) :
    ListEmployees (postgres real) page perPage db = ((none, 0, none), db) := by
  have hp0 : 0 ≤ page - 1 := by omega
  have hprod : 0 ≤ (page - 1) * perPage := mul_nonneg hp0 (by omega)
  have hle : page - 1 ≤ (page - 1) * perPage := by nlinarith
  have hw1 : wrapInt (page - 1) = page - 1 :=
    wrapInt_of_range _ (by norm_num; omega) (by omega)
  have hw2 : wrapInt ((page - 1) * perPage) = (page - 1) * perPage :=
    wrapInt_of_range _ (by norm_num; omega) hfit
  have hdrop : List.drop ((page - 1) * perPage).toNat
      (db.rows.insertionSort (fun a b => a.ID ≤ b.ID)) = [] := by
    apply List.drop_eq_nil_of_le
    rw [List.length_insertionSort]
    omega
  simp only [ListEmployees, postgres, hw1, hw2]
  rw [if_neg (by omega), if_neg (by omega)]
  simp [hdrop, scanRows]

/-- C3 (evaluation): a table of one row, page 2 of size 10. -/
theorem ListEmployees_beyond_data_total_zero_witness :
    oneRow.rows.length = 1 ∧
    ListEmployees (postgres id) 2 10 oneRow = ((none, 0, none), oneRow) :=
  ⟨rfl, ListEmployees_beyond_data_total_zero id oneRow 2 10 (by decide) (by decide)
    (by decide) (by decide)⟩

/-! ### C4 -/

/-- C4 (counterexample).  On a connection whose `Exec` succeeds and whose
`RowsAffected()` fails, `UpdateEmployee` and `DeleteEmployee` return the
"employee not found" error: it is returned although no row count of zero was
read, and the cause is dropped. -/
theorem notFound_on_rowsAffected_failure :
    (noRowCount.execUpdate "John Doe" "Engineer" (Float64.finite 50000) 1 ()).1 =
      .ok (.error (.other "no RowsAffected available")) ∧
    (UpdateEmployee noRowCount ⟨1, "John Doe", "Engineer", Float64.finite 50000⟩ ()).1 =
      some Error.notFound ∧
    (noRowCount.execDelete 1 ()).1 = .ok (.error (.other "no RowsAffected available")) ∧
    (DeleteEmployee noRowCount 1 ()).1 = some Error.notFound := by
  refine ⟨rfl, rfl, rfl, rfl⟩

/-- C4 (amended).  `UpdateEmployee` and `DeleteEmployee` return the "employee
not found" error exactly when `Exec` succeeded and the statement affected zero
rows or reading the affected-row count failed; a failed `Exec` is returned
unchanged.  `GetEmployeeByID` returns "employee not found" exactly for
`sql.ErrNoRows`, returns any other error unchanged, and no error when there
is none. -/
theorem storage_error_mapping {σ : Type} (d : Driver σ) (s : σ) (emp : Employee) (id : Int) :
    ((UpdateEmployee d emp s).1 = some Error.notFound ↔
      ∃ r, (d.execUpdate emp.Name emp.Position emp.Salary emp.ID s).1 = .ok r ∧
        (r = .ok 0 ∨ ∃ e, r = .error e)) ∧
    (∀ e, (d.execUpdate emp.Name emp.Position emp.Salary emp.ID s).1 = .error e →
      (UpdateEmployee d emp s).1 = some (Error.sql e)) ∧
    (∀ n, (d.execUpdate emp.Name emp.Position emp.Salary emp.ID s).1 = .ok (.ok n) →
      n ≠ 0 → (UpdateEmployee d emp s).1 = none) ∧
    ((DeleteEmployee d id s).1 = some Error.notFound ↔
      ∃ r, (d.execDelete id s).1 = .ok r ∧ (r = .ok 0 ∨ ∃ e, r = .error e)) ∧
    (∀ e, (d.execDelete id s).1 = .error e →
      (DeleteEmployee d id s).1 = some (Error.sql e)) ∧
    (∀ n, (d.execDelete id s).1 = .ok (.ok n) → n ≠ 0 → (DeleteEmployee d id s).1 = none) ∧
    ((GetEmployeeByID d id s).1.2 = some Error.notFound ↔
      (d.selectById id s).1.2 = some SqlError.ErrNoRows) ∧
    (∀ e, e ≠ SqlError.ErrNoRows → (d.selectById id s).1.2 = some e →
      (GetEmployeeByID d id s).1.2 = some (Error.sql e)) ∧
    ((d.selectById id s).1.2 = none → (GetEmployeeByID d id s).1.2 = none) := by
  refine ⟨?_, ?_, ?_, ?_, ?_, ?_, ?_, ?_, ?_⟩
  · unfold UpdateEmployee
    rcases hx : d.execUpdate emp.Name emp.Position emp.Salary emp.ID s with ⟨r, s1⟩
    rcases r with e | r
    · simp
    · rcases r with e | n
      · simp
      · by_cases hn : n = 0 <;> simp [hn]
  · intro e he
    unfold UpdateEmployee
    rcases hx : d.execUpdate emp.Name emp.Position emp.Salary emp.ID s with ⟨r, s1⟩
    rw [hx] at he
    simp only at he
    subst he
    rfl
  · intro n hn hne
    unfold UpdateEmployee
    rcases hx : d.execUpdate emp.Name emp.Position emp.Salary emp.ID s with ⟨r, s1⟩
    rw [hx] at hn
    simp only at hn
    subst hn
    simp [hne]
  · unfold DeleteEmployee
    rcases hx : d.execDelete id s with ⟨r, s1⟩
    rcases r with e | r
    · simp
    · rcases r with e | n
      · simp
      · by_cases hn : n = 0 <;> simp [hn]
  · intro e he
    unfold DeleteEmployee
    rcases hx : d.execDelete id s with ⟨r, s1⟩
    rw [hx] at he
    simp only at he
    subst he
    rfl
  · intro n hn hne
    unfold DeleteEmployee
    rcases hx : d.execDelete id s with ⟨r, s1⟩
    rw [hx] at hn
    simp only at hn
    subst hn
    simp [hne]
  · unfold GetEmployeeByID
    rcases hx : d.selectById id s with ⟨⟨e0, err⟩, s1⟩
    rcases err with _ | err
    · simp
    · cases err <;> simp
  · intro e hne he
    unfold GetEmployeeByID
    rcases hx : d.selectById id s with ⟨⟨e0, err⟩, s1⟩
    rw [hx] at he
    simp only at he
    subst he
    cases e with
    | ErrNoRows => exact absurd rfl hne
    | other msg => rfl
  · intro he
    unfold GetEmployeeByID
    rcases hx : d.selectById id s with ⟨⟨e0, err⟩, s1⟩
    rw [hx] at he
    simp only at he
    subst he
    rfl

/-! ### C5 -/

theorem filter_absent_id (rows : List Employee) (id : Int) (h : ∀ r ∈ rows, r.ID ≠ id) :
    rows.filter (fun r => decide (r.ID = id)) = [] := by
  rw [List.filter_eq_nil_iff]
  intro r hr
  simpa using h r hr

theorem count_absent_id (db : DB) (id : Int) (h : ∀ r ∈ db.rows, r.ID ≠ id) :
    db.count id = 0 := by
  simp [DB.count, filter_absent_id db.rows id h]

theorem find_absent_id (rows : List Employee) (id : Int) (h : ∀ r ∈ rows, r.ID ≠ id) :
    rows.find? (fun r => decide (r.ID = id)) = none := by
  rw [List.find?_eq_none]
  intro r hr
  simpa using h r hr

theorem map_absent_id (rows : List Employee) (id : Int) (f : Employee → Employee)
    (h : ∀ r ∈ rows, r.ID ≠ id) :
    rows.map (fun r => if r.ID = id then f r else r) = rows := by
  induction rows with
  | nil => rfl
  | cons a t ih =>
    have ha : a.ID ≠ id := h a (List.mem_cons_self a t)
    have ht : ∀ r ∈ t, r.ID ≠ id := fun r hr => h r (List.mem_cons_of_mem a hr)
    simp only [List.map_cons, if_neg ha, ih ht]

theorem filter_out_absent_id (rows : List Employee) (id : Int) (h : ∀ r ∈ rows, r.ID ≠ id) :
    rows.filter (fun r => !decide (r.ID = id)) = rows := by
  rw [List.filter_eq_self]
  intro r hr
  simpa using h r hr

/-- The three statements of `postgres`, which takes its parameters to lie
within the column types, on an id that no stored row carries:
`GetEmployeeByID`, `UpdateEmployee` of an employee with that id and
`DeleteEmployee` each return the "employee not found" error and leave the
table as it was. -/
theorem absent_id_not_found (real : Float64 → Float64) (db : DB) (emp : Employee) (id : Int)
    (habsent : ∀ r ∈ db.rows, r.ID ≠ id) (hid : emp.ID = id) :
    (GetEmployeeByID (postgres real) id db).1.2 = some Error.notFound ∧
    (GetEmployeeByID (postgres real) id db).2 = db ∧
    UpdateEmployee (postgres real) emp db = (some Error.notFound, db) ∧
    DeleteEmployee (postgres real) id db = (some Error.notFound, db) := by
  subst hid
  have hfind := find_absent_id db.rows emp.ID habsent
  have hcount := count_absent_id db emp.ID habsent
  refine ⟨?_, ?_, ?_, ?_⟩
  · simp [GetEmployeeByID, postgres, hfind]
  · simp [GetEmployeeByID, postgres, hfind]
  · simp only [UpdateEmployee, postgres, hcount, if_true]
    rw [map_absent_id db.rows emp.ID _ habsent]
  · simp only [DeleteEmployee, postgres, hcount, if_true]
    rw [filter_out_absent_id db.rows emp.ID habsent]

/-- An instance of `absent_id_not_found`: id 2 on the one-row table, whose only
id is 1. -/
theorem absent_id_not_found_witness :
    (∀ r ∈ oneRow.rows, r.ID ≠ 2) ∧
    (GetEmployeeByID (postgres id) 2 oneRow).1.2 = some Error.notFound ∧
    (GetEmployeeByID (postgres id) 2 oneRow).2 = oneRow ∧
    UpdateEmployee (postgres id) ⟨2, "Jane Roe", "Manager", Float64.finite 70000⟩ oneRow =
      (some Error.notFound, oneRow) ∧
    DeleteEmployee (postgres id) 2 oneRow = (some Error.notFound, oneRow) :=
  ⟨by decide, absent_id_not_found id oneRow ⟨2, "Jane Roe", "Manager", Float64.finite 70000⟩ 2
    (by decide) rfl⟩

/-! ### C5 with the column types enforced -/

/-- C5 (counterexample).  On the one-row table, whose only id is 1: the id
3000000000 is not stored, yet `GetEmployeeByID`, `UpdateEmployee` and
`DeleteEmployee` return the error of the server, which rejects a parameter
outside the 32-bit `id` column, and not "employee not found"; likewise an
update of the absent id 2 with a salary that `REAL` cannot hold. -/
theorem absent_id_out_of_range :
    (∀ r ∈ oneRow.rows, r.ID ≠ 3000000000) ∧
    (GetEmployeeByID (typedPostgres real4) 3000000000 oneRow).1.2 =
      some (Error.sql (.other "value out of range for type integer")) ∧
    UpdateEmployee (typedPostgres real4)
      ⟨3000000000, "Jane Roe", "Manager", Float64.finite 70000⟩ oneRow =
      (some (Error.sql (.other "value out of range for type integer")), oneRow) ∧
    DeleteEmployee (typedPostgres real4) 3000000000 oneRow =
      (some (Error.sql (.other "value out of range for type integer")), oneRow) ∧
    (∀ r ∈ oneRow.rows, r.ID ≠ 2) ∧
    UpdateEmployee (typedPostgres real4)
      ⟨2, "Jane Roe", "Manager", Float64.finite 340282366920938463463374607431768211456⟩
      oneRow = (some (Error.sql (.other "value out of range for type real")), oneRow) := by
  have hreal : fitsReal (Float64.finite 340282366920938463463374607431768211456) = false := by
    simp only [fitsReal]
    norm_num
  refine ⟨by decide, rfl, rfl, rfl, by decide, ?_⟩
  simp only [UpdateEmployee, typedPostgres, hreal]
  rfl

/-- C5 (amended).  With the column types enforced, for every table and every
id that no stored row carries: when the id fits the 32-bit `id` column,
`GetEmployeeByID` and `DeleteEmployee` return the "employee not found" error,
and so does `UpdateEmployee` of an employee with that id whose salary `REAL`
can hold; when the id does not fit, or the salary of the update does not,
each returns the error of the server as it is.  In every case the table is
left as it was. -/
theorem absent_id_not_found_in_range (real : Float64 → Float64) (db : DB) (emp : Employee)
    (id : Int) (habsent : ∀ r ∈ db.rows, r.ID ≠ id) (hid : emp.ID = id) :
    (fitsInteger id = true →
      (GetEmployeeByID (typedPostgres real) id db).1.2 = some Error.notFound ∧
      (GetEmployeeByID (typedPostgres real) id db).2 = db ∧
      DeleteEmployee (typedPostgres real) id db = (some Error.notFound, db) ∧
      (fitsReal emp.Salary = true →
        UpdateEmployee (typedPostgres real) emp db = (some Error.notFound, db)) ∧
      (fitsReal emp.Salary = false →
        UpdateEmployee (typedPostgres real) emp db =
          (some (Error.sql (.other "value out of range for type real")), db))) ∧
    (fitsInteger id = false →
      (GetEmployeeByID (typedPostgres real) id db).1.2 =
        some (Error.sql (.other "value out of range for type integer")) ∧
      (GetEmployeeByID (typedPostgres real) id db).2 = db ∧
      DeleteEmployee (typedPostgres real) id db =
        (some (Error.sql (.other "value out of range for type integer")), db) ∧
      UpdateEmployee (typedPostgres real) emp db =
        (some (Error.sql (.other "value out of range for type integer")), db)) := by
  obtain ⟨hg1, hg2, hu, hd⟩ := absent_id_not_found real db emp id habsent hid
  subst hid
  constructor
  · intro hfit
    have hget : GetEmployeeByID (typedPostgres real) emp.ID db =
        GetEmployeeByID (postgres real) emp.ID db := by
      simp [GetEmployeeByID, typedPostgres, hfit]
    have hdel : DeleteEmployee (typedPostgres real) emp.ID db =
        DeleteEmployee (postgres real) emp.ID db := by
      simp [DeleteEmployee, typedPostgres, hfit]
    refine ⟨by rw [hget]; exact hg1, by rw [hget]; exact hg2, by rw [hdel]; exact hd, ?_, ?_⟩
    · intro hsal
      have hupd : UpdateEmployee (typedPostgres real) emp db =
          UpdateEmployee (postgres real) emp db := by
        simp [UpdateEmployee, typedPostgres, hfit, hsal]
      rw [hupd]; exact hu
    · intro hsal
      simp [UpdateEmployee, typedPostgres, hfit, hsal]
  · intro hfit
    refine ⟨?_, ?_, ?_, ?_⟩
    · simp [GetEmployeeByID, typedPostgres, hfit]
    · simp [GetEmployeeByID, typedPostgres, hfit]
    · simp [DeleteEmployee, typedPostgres, hfit]
    · simp [UpdateEmployee, typedPostgres, hfit]

/-- C5 (witness): the absent id 2 on the one-row table, whose only id is 1. -/
theorem absent_id_not_found_in_range_witness :
    (∀ r ∈ oneRow.rows, r.ID ≠ 2) ∧ fitsInteger 2 = true ∧
    fitsReal (Float64.finite 70000) = true ∧
    (GetEmployeeByID (typedPostgres real4) 2 oneRow).1.2 = some Error.notFound ∧
    DeleteEmployee (typedPostgres real4) 2 oneRow = (some Error.notFound, oneRow) ∧
    UpdateEmployee (typedPostgres real4) ⟨2, "Jane Roe", "Manager", Float64.finite 70000⟩
      oneRow = (some Error.notFound, oneRow) :=
  have hsal : fitsReal (Float64.finite 70000) = true := by
    simp only [fitsReal]
    norm_num
  have key := (absent_id_not_found_in_range real4 oneRow
    ⟨2, "Jane Roe", "Manager", Float64.finite 70000⟩ 2 (by decide) rfl).1 (by decide)
  ⟨by decide, by decide, hsal, key.1, key.2.2.1, key.2.2.2.1 hsal⟩

/-! ### C6 -/

/-- C6.  `GetEmployeeHandler`, `UpdateEmployeeHandler` and
`DeleteEmployeeHandler` answer 400 "Invalid employee ID" exactly when `Atoi`
rejects the id path segment or yields a value `<= 0`, and then they make no
storage call and leave the storage state as it was; for Update this holds
for every outcome of decoding the body. -/
theorem invalid_id_rejected {σ : Type} (conv : Float64 → Int) (h : EmployeeDB σ)
    (r : Request) (s : σ) :
    ((GetEmployeeHandler conv h r s).response = httpError "Invalid employee ID" 400 ↔
      (strconv.Atoi r.id = none ∨ ∃ id, strconv.Atoi r.id = some id ∧ id ≤ 0)) ∧
    ((strconv.Atoi r.id = none ∨ ∃ id, strconv.Atoi r.id = some id ∧ id ≤ 0) →
      (GetEmployeeHandler conv h r s).calls = [] ∧
      (GetEmployeeHandler conv h r s).state = s) ∧
    ((UpdateEmployeeHandler conv h r s).response = httpError "Invalid employee ID" 400 ↔
      (strconv.Atoi r.id = none ∨ ∃ id, strconv.Atoi r.id = some id ∧ id ≤ 0)) ∧
    ((strconv.Atoi r.id = none ∨ ∃ id, strconv.Atoi r.id = some id ∧ id ≤ 0) →
      (UpdateEmployeeHandler conv h r s).calls = [] ∧
      (UpdateEmployeeHandler conv h r s).state = s) ∧
    ((DeleteEmployeeHandler h r s).response = httpError "Invalid employee ID" 400 ↔
      (strconv.Atoi r.id = none ∨ ∃ id, strconv.Atoi r.id = some id ∧ id ≤ 0)) ∧
    ((strconv.Atoi r.id = none ∨ ∃ id, strconv.Atoi r.id = some id ∧ id ≤ 0) →
      (DeleteEmployeeHandler h r s).calls = [] ∧
      (DeleteEmployeeHandler h r s).state = s) := by
  rcases hA : strconv.Atoi r.id with _ | id
  · simp [GetEmployeeHandler, UpdateEmployeeHandler, DeleteEmployeeHandler, hA]
  · by_cases hid : id ≤ 0
    · simp [GetEmployeeHandler, UpdateEmployeeHandler, DeleteEmployeeHandler, hA, hid]
    · refine ⟨?_, ?_, ?_, ?_, ?_, ?_⟩
      · rcases hg : h.GetEmployeeByID id s with ⟨⟨e, err⟩, s1⟩
        cases err <;> simp [GetEmployeeHandler, hA, hid, hg, httpError]
      · simp [hid]
      · rcases hd : r.decoded with _ | p
        · simp [UpdateEmployeeHandler, hA, hid, hd, httpError]
        · rcases hv : p.validate with _ | err
          · rcases hu : h.UpdateEmployee { p.toEmployee with ID := id } s with ⟨err, s1⟩
            cases err <;> simp [UpdateEmployeeHandler, hA, hid, hd, hv, hu, httpError]
          · rcases validate_some_cases p err hv with he | he | he <;>
              simp [UpdateEmployeeHandler, hA, hid, hd, hv, he, httpError, Error.Error]
      · simp [hid]
      · rcases hg : h.DeleteEmployee id s with ⟨err, s1⟩
        cases err <;> simp [DeleteEmployeeHandler, hA, hid, hg, httpError]
      · simp [hid]

/-! ### C7 -/

/-- C7.  With a path id that parses to a positive integer (and, for Update, a
body that decodes and passes `validate`), the Get, Update and Delete handlers
answer 404 "Employee not found" exactly when the storage call returns an
error, whichever it is; otherwise Get and Update answer 200 with the employee
as JSON and Delete answers 204 with an empty body. -/
theorem storage_error_is_404 {σ : Type} (conv : Float64 → Int) (h : EmployeeDB σ)
    (r : Request) (s : σ) (id : Int) (hid : strconv.Atoi r.id = some id) (hpos : 0 < id) :
    (((GetEmployeeHandler conv h r s).response = httpError "Employee not found" 404 ↔
        (h.GetEmployeeByID id s).1.2 ≠ none) ∧
      ((h.GetEmployeeByID id s).1.2 = none →
        (GetEmployeeHandler conv h r s).response =
          ⟨200, [("Content-Type", "application/json")],
            Body.employee (toEmployeeResponse conv (h.GetEmployeeByID id s).1.1)⟩)) ∧
    (∀ p, r.decoded = some p → p.validate = none →
      (((UpdateEmployeeHandler conv h r s).response = httpError "Employee not found" 404 ↔
          (h.UpdateEmployee ⟨id, p.Name, p.Position, p.Salary⟩ s).1 ≠ none) ∧
        ((h.UpdateEmployee ⟨id, p.Name, p.Position, p.Salary⟩ s).1 = none →
          (UpdateEmployeeHandler conv h r s).response =
            ⟨200, [("Content-Type", "application/json")],
              Body.employee (toEmployeeResponse conv ⟨id, p.Name, p.Position, p.Salary⟩)⟩))) ∧
    (((DeleteEmployeeHandler h r s).response = httpError "Employee not found" 404 ↔
        (h.DeleteEmployee id s).1 ≠ none) ∧
      ((h.DeleteEmployee id s).1 = none →
        (DeleteEmployeeHandler h r s).response = ⟨204, [], Body.empty⟩)) := by
  have hn : ¬ id ≤ 0 := not_le.mpr hpos
  refine ⟨?_, ?_, ?_⟩
  · rcases hg : h.GetEmployeeByID id s with ⟨⟨e, err⟩, s1⟩
    cases err <;> simp [GetEmployeeHandler, hid, hn, hg, httpError]
  · intro p hd hv
    rcases hu : h.UpdateEmployee ⟨id, p.Name, p.Position, p.Salary⟩ s with ⟨err, s1⟩
    cases err <;>
      simp [UpdateEmployeeHandler, EmployeeParams.toEmployee, hid, hn, hd, hv, hu, httpError]
  · rcases hg : h.DeleteEmployee id s with ⟨err, s1⟩
    cases err <;> simp [DeleteEmployeeHandler, hid, hn, hg, httpError]

/-- C7 (witness): `GET /api/v1/employees/1` on the one-row table. -/
theorem storage_error_is_404_witness :
    strconv.Atoi "1" = some 1 ∧
    (GetEmployeeHandler amd64 (NewEmployee (postgres id))
      ⟨"/api/v1/employees/1", "1", "", "", none⟩ oneRow).response =
      ⟨200, [("Content-Type", "application/json")],
        Body.employee ⟨1, "John Doe", "Engineer", 50000⟩⟩ :=
  ⟨rfl, (storage_error_is_404 amd64 (NewEmployee (postgres id))
    ⟨"/api/v1/employees/1", "1", "", "", none⟩ oneRow 1 rfl (by decide)).1.2 rfl⟩

/-! ### C8 -/

theorem goInt_of_fits (conv : Float64 → Int) (q : ℚ)
    (hlo : -(2 : Int) ^ 63 ≤ Float64.truncQ q) (hhi : Float64.truncQ q < (2 : Int) ^ 63) :
    goInt conv (Float64.finite q) = Float64.truncQ q := by
  simp only [goInt]
  rw [if_pos ⟨hlo, hhi⟩]

/-- The salary half of the counterexample to C8: the payload with salary
9223372036854775808 (two to the power 63, a float64 value) passes `validate`, and its truncation toward
zero is that same integer; yet the salary in the body of the 201 response is
the smallest `int` on amd64, and on no platform is it the truncated salary,
which no `int` can hold. -/
theorem create_salary_beyond_int :
    (EmployeeParams.mk "John Doe" "Engineer"
      (Float64.finite 9223372036854775808)).validate = none ∧
    Float64.truncQ 9223372036854775808 = 9223372036854775808 ∧
    (CreateEmployeeHandler amd64 (NewEmployee (postgres id))
      ⟨"/api/v1/employees", "", "", "",
        some ⟨"John Doe", "Engineer", Float64.finite 9223372036854775808⟩⟩
      ⟨[], 0⟩).response =
      ⟨201, [("Content-Type", "application/json"), ("Location", "/api/v1/employees/1")],
        Body.employee ⟨1, "John Doe", "Engineer", -9223372036854775808⟩⟩ ∧
    ¬ ∃ conv : Float64 → Int,
      (CreateEmployeeHandler conv (NewEmployee (postgres id))
        ⟨"/api/v1/employees", "", "", "",
          some ⟨"John Doe", "Engineer", Float64.finite 9223372036854775808⟩⟩
        ⟨[], 0⟩).response.body =
        Body.employee ⟨1, "John Doe", "Engineer", 9223372036854775808⟩ := by
  refine ⟨by decide, by decide, rfl, ?_⟩
  rintro ⟨conv, hc⟩
  have hbody : (CreateEmployeeHandler conv (NewEmployee (postgres id))
      ⟨"/api/v1/employees", "", "", "",
        some ⟨"John Doe", "Engineer", Float64.finite 9223372036854775808⟩⟩
      ⟨[], 0⟩).response.body =
      Body.employee ⟨1, "John Doe", "Engineer",
        goInt conv (Float64.finite 9223372036854775808)⟩ := rfl
  rw [hbody] at hc
  injection hc with hc
  injection hc with _ _ _ hsal
  have hlt := goInt_lt conv (Float64.finite 9223372036854775808)
  rw [hsal] at hlt
  norm_num at hlt

/-- C8 (counterexample).  Two valid payloads at which the claim fails.  With
the salary 9223372036854775808 the body does not carry the truncated salary
(see `create_salary_beyond_int`).  With the request path
`/api/v1/employees/`, which main.go routes to the handler as well, the
`Location` is `/api/v1/employees//1`, which the router does not take to
`GetEmployeeHandler`: it does not point at the new resource. -/
theorem create_response_counterexample :
    ((EmployeeParams.mk "John Doe" "Engineer"
        (Float64.finite 9223372036854775808)).validate = none ∧
      Float64.truncQ 9223372036854775808 = 9223372036854775808 ∧
      (CreateEmployeeHandler amd64 (NewEmployee (postgres id))
        ⟨"/api/v1/employees", "", "", "",
          some ⟨"John Doe", "Engineer", Float64.finite 9223372036854775808⟩⟩
        ⟨[], 0⟩).response =
        ⟨201, [("Content-Type", "application/json"), ("Location", "/api/v1/employees/1")],
          Body.employee ⟨1, "John Doe", "Engineer", -9223372036854775808⟩⟩ ∧
      ¬ ∃ conv : Float64 → Int,
        (CreateEmployeeHandler conv (NewEmployee (postgres id))
          ⟨"/api/v1/employees", "", "", "",
            some ⟨"John Doe", "Engineer", Float64.finite 9223372036854775808⟩⟩
          ⟨[], 0⟩).response.body =
          Body.employee ⟨1, "John Doe", "Engineer", 9223372036854775808⟩) ∧
    johnDoe.validate = none ∧
    (CreateEmployeeHandler amd64 (NewEmployee (postgres id))
      ⟨"/api/v1/employees/", "", "", "", some johnDoe⟩ ⟨[], 0⟩).response =
      ⟨201, [("Content-Type", "application/json"), ("Location", "/api/v1/employees//1")],
        Body.employee ⟨1, "John Doe", "Engineer", 5000⟩⟩ ∧
    getEmployeeRoute "/api/v1/employees//1" = none ∧
    getEmployeeRoute "/api/v1/employees/1" = some "1" :=
  ⟨create_salary_beyond_int, by decide, rfl, by decide, by decide⟩

/-- C8 (amended).  For a body that decodes to a payload passing `validate`: when storage
Create returns an error, `CreateEmployeeHandler` answers 500 with the text of
that error; otherwise it answers 201 with the `Location` header set to the
request path, a slash and the decimal id of the returned employee, and the
returned employee as JSON.  With the repository's storage (`NewEmployee` on
any connection) that JSON carries the id scanned from the insert, the
submitted name and position, and `int(salary)` of the submitted salary, which
is the salary truncated toward zero whenever that fits an `int`.  On a
request whose id segment is the decimal text of a positive id,
`GetEmployeeHandler` asks storage for that id; and when the request path is
`/api/v1/employees`, the router of main.go takes a `GET` of the `Location` to
`GetEmployeeHandler` with that segment, so that the `Location` points at the
new resource. -/
theorem create_valid_payload{σ : Type} (conv : Float64 → Int) (h : EmployeeDB σ)
    (d : Driver σ) (r : Request) (s : σ) (p : EmployeeParams)
    (hbody : r.decoded = some p) (hvalid : p.validate = none) :
    (∀ e, (h.CreateEmployee p.toEmployee s).1.2 = some e →
      (CreateEmployeeHandler conv h r s).response = httpError e.Error 500) ∧
    ((h.CreateEmployee p.toEmployee s).1.2 = none →
      (CreateEmployeeHandler conv h r s).response =
        ⟨201, [("Content-Type", "application/json"),
               ("Location",
                 r.Path ++ "/" ++ strconv.Itoa (h.CreateEmployee p.toEmployee s).1.1.ID)],
          Body.employee (toEmployeeResponse conv (h.CreateEmployee p.toEmployee s).1.1)⟩) ∧
    (∀ e, (d.insertReturningId p.Name p.Position p.Salary s).1 = .error e →
      (CreateEmployeeHandler conv (NewEmployee d) r s).response =
        httpError (Error.sql e).Error 500) ∧
    (∀ id, (d.insertReturningId p.Name p.Position p.Salary s).1 = .ok id →
      (CreateEmployeeHandler conv (NewEmployee d) r s).response =
        ⟨201, [("Content-Type", "application/json"),
               ("Location", r.Path ++ "/" ++ strconv.Itoa id)],
          Body.employee ⟨id, p.Name, p.Position, goInt conv p.Salary⟩⟩) ∧
    (∀ q, p.Salary = Float64.finite q → -(2 : Int) ^ 63 ≤ Float64.truncQ q →
      Float64.truncQ q < (2 : Int) ^ 63 → goInt conv p.Salary = Float64.truncQ q) ∧
    (∀ (id : Int) (r2 : Request) (s2 : σ), 0 < id → id < (2 : Int) ^ 63 →
      r2.id = strconv.Itoa id → (GetEmployeeHandler conv h r2 s2).calls = [Call.get id]) ∧
    (∀ id : Int, 0 < id → id < (2 : Int) ^ 63 → r.Path = "/api/v1/employees" →
      getEmployeeRoute (r.Path ++ "/" ++ strconv.Itoa id) = some (strconv.Itoa id) ∧
      ∀ (r2 : Request) (s2 : σ),
        getEmployeeRoute (r.Path ++ "/" ++ strconv.Itoa id) = some r2.id →
        (GetEmployeeHandler conv h r2 s2).calls = [Call.get id]) := by
  have hget : ∀ (id : Int) (r2 : Request) (s2 : σ), 0 < id → id < (2 : Int) ^ 63 →
      r2.id = strconv.Itoa id → (GetEmployeeHandler conv h r2 s2).calls = [Call.get id] := by
    intro id r2 s2 hpos hlt hseg
    have hparse : strconv.Atoi r2.id = some id := by
      rw [hseg]
      exact strconv.Atoi_Itoa id (le_of_lt hpos) hlt
    rcases hg : h.GetEmployeeByID id s2 with ⟨⟨e, err⟩, s1⟩
    cases err <;> simp [GetEmployeeHandler, hparse, not_le.mpr hpos, hg]
  refine ⟨?_, ?_, ?_, ?_, ?_, hget, ?_⟩
  · intro e he
    rcases hc : h.CreateEmployee p.toEmployee s with ⟨⟨emp, err⟩, s1⟩
    rw [hc] at he
    simp only at he
    subst he
    simp [CreateEmployeeHandler, hbody, hvalid, hc]
  · intro he
    rcases hc : h.CreateEmployee p.toEmployee s with ⟨⟨emp, err⟩, s1⟩
    rw [hc] at he
    simp only at he
    subst he
    simp [CreateEmployeeHandler, hbody, hvalid, hc]
  · intro e he
    rcases hx : d.insertReturningId p.Name p.Position p.Salary s with ⟨res, s1⟩
    rw [hx] at he
    simp only at he
    subst he
    simp [CreateEmployeeHandler, hbody, hvalid, NewEmployee, CreateEmployee,
      EmployeeParams.toEmployee, hx]
  · intro id he
    rcases hx : d.insertReturningId p.Name p.Position p.Salary s with ⟨res, s1⟩
    rw [hx] at he
    simp only at he
    subst he
    simp [CreateEmployeeHandler, hbody, hvalid, NewEmployee, CreateEmployee,
      EmployeeParams.toEmployee, hx, toEmployeeResponse]
  · intro q hq hlo hhi
    rw [hq]
    exact goInt_of_fits conv q hlo hhi
  · intro id hpos hlt hpath
    have hroute : getEmployeeRoute (r.Path ++ "/" ++ strconv.Itoa id) =
        some (strconv.Itoa id) := by
      rw [hpath]
      exact getEmployeeRoute_location id (le_of_lt hpos)
    refine ⟨hroute, ?_⟩
    intro r2 s2 hr2
    rw [hroute] at hr2
    exact hget id r2 s2 hpos hlt (Option.some.inj hr2).symm

/-- C8 (witness): the test case "create employee" on an empty table; the
`Location` of the answer is routed to `GetEmployeeHandler` with the id
segment `1`. -/
theorem create_valid_payload_witness :
    johnDoe.validate = none ∧
    (CreateEmployeeHandler amd64 (NewEmployee (postgres id))
      ⟨"/api/v1/employees", "", "", "", some johnDoe⟩ ⟨[], 0⟩).response =
      ⟨201, [("Content-Type", "application/json"), ("Location", "/api/v1/employees/1")],
        Body.employee ⟨1, "John Doe", "Engineer", 5000⟩⟩ ∧
    getEmployeeRoute ("/api/v1/employees" ++ "/" ++ strconv.Itoa 1) = some (strconv.Itoa 1) :=
  have key := create_valid_payload amd64 (NewEmployee (postgres id)) (postgres id)
    ⟨"/api/v1/employees", "", "", "", some johnDoe⟩ ⟨[], 0⟩ johnDoe rfl (by decide)
  ⟨by decide, key.2.2.2.1 1 rfl, (key.2.2.2.2.2.2 1 (by decide) (by decide) rfl).1⟩

/-! ### C9 -/

/-- C9 (counterexample).  `PUT /api/v1/employees/1` with the salary
10000000000000000000 (a float64 value, valid for `validate`, equal to its own
truncation): the update succeeds, and the salary in the 200 response is the
smallest `int` on amd64 and on no platform the truncated salary. -/
theorem update_salary_beyond_int :
    (EmployeeParams.mk "John Doe" "Engineer"
      (Float64.finite 10000000000000000000)).validate = none ∧
    Float64.truncQ 10000000000000000000 = 10000000000000000000 ∧
    (UpdateEmployeeHandler amd64 (NewEmployee (postgres id))
      ⟨"/api/v1/employees/1", "1", "", "",
        some ⟨"John Doe", "Engineer", Float64.finite 10000000000000000000⟩⟩
      oneRow).response =
      ⟨200, [("Content-Type", "application/json")],
        Body.employee ⟨1, "John Doe", "Engineer", -9223372036854775808⟩⟩ ∧
    ¬ ∃ conv : Float64 → Int,
      (UpdateEmployeeHandler conv (NewEmployee (postgres id))
        ⟨"/api/v1/employees/1", "1", "", "",
          some ⟨"John Doe", "Engineer", Float64.finite 10000000000000000000⟩⟩
        oneRow).response.body =
        Body.employee ⟨1, "John Doe", "Engineer", 10000000000000000000⟩ := by
  refine ⟨by decide, by decide, rfl, ?_⟩
  rintro ⟨conv, hc⟩
  have hbody : (UpdateEmployeeHandler conv (NewEmployee (postgres id))
      ⟨"/api/v1/employees/1", "1", "", "",
        some ⟨"John Doe", "Engineer", Float64.finite 10000000000000000000⟩⟩
      oneRow).response.body =
      Body.employee ⟨1, "John Doe", "Engineer",
        goInt conv (Float64.finite 10000000000000000000)⟩ := rfl
  rw [hbody] at hc
  injection hc with hc
  injection hc with _ _ _ hsal
  have hlt := goInt_lt conv (Float64.finite 10000000000000000000)
  rw [hsal] at hlt
  norm_num at hlt

/-- C9 (amended).  For a path id that parses to a positive integer and a body that
decodes to a payload passing `validate`, `UpdateEmployeeHandler` makes exactly
one storage call, `UpdateEmployee` of the employee with the path id and the
submitted name, position and salary; when that call returns no error the
answer is 200 with the JSON of that same employee (salary converted by
`int(...)`, which truncates toward zero whenever the result fits an `int`):
nothing returned by storage enters the body. -/
theorem update_valid_request {σ : Type} (conv : Float64 → Int) (h : EmployeeDB σ)
    (r : Request) (s : σ) (id : Int) (p : EmployeeParams)
    (hid : strconv.Atoi r.id = some id) (hpos : 0 < id)
    (hbody : r.decoded = some p) (hvalid : p.validate = none) :
    (UpdateEmployeeHandler conv h r s).calls =
      [Call.update ⟨id, p.Name, p.Position, p.Salary⟩] ∧
    (UpdateEmployeeHandler conv h r s).state =
      (h.UpdateEmployee ⟨id, p.Name, p.Position, p.Salary⟩ s).2 ∧
    ((h.UpdateEmployee ⟨id, p.Name, p.Position, p.Salary⟩ s).1 = none →
      (UpdateEmployeeHandler conv h r s).response =
        ⟨200, [("Content-Type", "application/json")],
          Body.employee ⟨id, p.Name, p.Position, goInt conv p.Salary⟩⟩) ∧
    (∀ q, p.Salary = Float64.finite q → -(2 : Int) ^ 63 ≤ Float64.truncQ q →
      Float64.truncQ q < (2 : Int) ^ 63 → goInt conv p.Salary = Float64.truncQ q) := by
  have hn : ¬ id ≤ 0 := not_le.mpr hpos
  rcases hu : h.UpdateEmployee ⟨id, p.Name, p.Position, p.Salary⟩ s with ⟨err, s1⟩
  refine ⟨?_, ?_, ?_, ?_⟩
  · cases err <;>
      simp [UpdateEmployeeHandler, EmployeeParams.toEmployee, hid, hn, hbody, hvalid, hu]
  · cases err <;>
      simp [UpdateEmployeeHandler, EmployeeParams.toEmployee, hid, hn, hbody, hvalid, hu]
  · intro he
    simp only at he
    subst he
    simp [UpdateEmployeeHandler, EmployeeParams.toEmployee, hid, hn, hbody, hvalid, hu,
      toEmployeeResponse]
  · intro q hq hlo hhi
    rw [hq]
    exact goInt_of_fits conv q hlo hhi

/-- C9 (witness): the test case "update employee": `PUT /api/v1/employees/1`
with the test payload, on the one-row table. -/
theorem update_valid_request_witness :
    strconv.Atoi "1" = some 1 ∧ johnDoe.validate = none ∧
    (UpdateEmployeeHandler amd64 (NewEmployee (postgres id))
      ⟨"/api/v1/employees/1", "1", "", "", some johnDoe⟩ oneRow).calls =
      [Call.update ⟨1, "John Doe", "Engineer", Float64.finite 5000⟩] ∧
    (UpdateEmployeeHandler amd64 (NewEmployee (postgres id))
      ⟨"/api/v1/employees/1", "1", "", "", some johnDoe⟩ oneRow).response =
      ⟨200, [("Content-Type", "application/json")],
        Body.employee ⟨1, "John Doe", "Engineer", 5000⟩⟩ :=
  have key := update_valid_request amd64 (NewEmployee (postgres id))
    ⟨"/api/v1/employees/1", "1", "", "", some johnDoe⟩ oneRow 1 johnDoe rfl (by decide) rfl
    (by decide)
  ⟨rfl, by decide, key.1, key.2.2.1 rfl⟩

/-! ### C10 -/

/-- C10.  `ListEmployeesHandler` makes exactly one storage call,
`ListEmployees(page, perPage)`, where `page` is the value of the `page` query
parameter when `Atoi` accepts it with a value `> 0` and `1` otherwise, and
`perPage` is the value of `per_page` when `Atoi` accepts it with a value `> 0`
and `10` otherwise.  Each of the two is determined by its own parameter
alone, and every positive value that `Atoi` yields is passed on as it is: the
decimal text of any positive `int`, however large, is taken as the page or the
page size. -/
theorem list_query_parameters {σ : Type} (conv : Float64 → Int) (h : EmployeeDB σ)
    (r : Request) (s : σ) :
    ∃ page perPage : Int,
      (ListEmployeesHandler conv h r s).calls = [Call.list page perPage] ∧
      (ListEmployeesHandler conv h r s).state = (h.ListEmployees page perPage s).2 ∧
      (∀ v, strconv.Atoi r.page = some v → 0 < v → page = v) ∧
      (∀ v, strconv.Atoi r.page = some v → v ≤ 0 → page = 1) ∧
      (strconv.Atoi r.page = none → page = 1) ∧
      (∀ v, strconv.Atoi r.per_page = some v → 0 < v → perPage = v) ∧
      (∀ v, strconv.Atoi r.per_page = some v → v ≤ 0 → perPage = 10) ∧
      (strconv.Atoi r.per_page = none → perPage = 10) ∧
      (∀ n : Int, 0 < n → n < (2 : Int) ^ 63 → r.page = strconv.Itoa n → page = n) ∧
      (∀ n : Int, 0 < n → n < (2 : Int) ^ 63 → r.per_page = strconv.Itoa n →
        perPage = n) := by
  refine ⟨(match strconv.Atoi r.page with
            | none => 1
            | some page => if page ≤ 0 then 1 else page),
          (match strconv.Atoi r.per_page with
            | none => 10
            | some perPage => if perPage ≤ 0 then 10 else perPage),
          ?_, ?_, ?_, ?_, ?_, ?_, ?_, ?_, ?_, ?_⟩
  · simp only [ListEmployeesHandler]
    split <;> rfl
  · simp only [ListEmployeesHandler]
    split <;> simp_all
  · intro v hv hpos
    simp [hv, not_le.mpr hpos]
  · intro v hv hle
    simp [hv, hle]
  · intro hv
    simp [hv]
  · intro v hv hpos
    simp [hv, not_le.mpr hpos]
  · intro v hv hle
    simp [hv, hle]
  · intro hv
    simp [hv]
  · intro n hpos hlt hn
    rw [hn, strconv.Atoi_Itoa n (le_of_lt hpos) hlt]
    simp [not_le.mpr hpos]
  · intro n hpos hlt hn
    rw [hn, strconv.Atoi_Itoa n (le_of_lt hpos) hlt]
    simp [not_le.mpr hpos]

/-! ### C11 -/

theorem foldl_set_enumFrom (f : Employee → EmployeeResponse) (l : List Employee)
    (pre : List EmployeeResponse) :
    (l.enumFrom pre.length).foldl (fun acc p => acc.set p.1 (f p.2))
      (pre ++ List.replicate l.length default) = pre ++ l.map f := by
  induction l generalizing pre with
  | nil => simp
  | cons a t ih =>
    have hstep : (pre ++ List.replicate (t.length + 1) (default : EmployeeResponse)).set
        pre.length (f a) = (pre ++ [f a]) ++ List.replicate t.length default := by
      simp [List.replicate_succ]
    have hlen : (pre ++ [f a]).length = pre.length + 1 := by simp
    simp only [List.enumFrom_cons, List.foldl_cons, List.length_cons, hstep]
    rw [← hlen, ih (pre ++ [f a])]
    simp

theorem fillResponses_eq_map (conv : Float64 → Int) (employees : List Employee) :
    fillResponses conv employees = employees.map (toEmployeeResponse conv) := by
  have h := foldl_set_enumFrom (toEmployeeResponse conv) employees []
  simpa [fillResponses, List.enum] using h

/-- C11.  `ListEmployeesHandler` makes one storage call.  When that call returns
the slice `es` and the total `n` without error, the answer is 200 with total
`n` and a non-nil array holding the response forms of the elements of `es`, in
the same order and of the same length; for an empty `es`, the nil slice
included, it is the empty array and not `null`.  When the call returns an
error, the answer is 500 with the text of the error.  On an empty table, with
the repository's storage and no query parameters, the answer is 200 with the
empty array and total 0. -/
theorem list_response {σ : Type} (conv : Float64 → Int) (h : EmployeeDB σ)
    (r : Request) (s : σ) :
    (∃ page perPage : Int,
      (ListEmployeesHandler conv h r s).calls = [Call.list page perPage] ∧
      (∀ es total, (h.ListEmployees page perPage s).1 = (es, total, none) →
        (ListEmployeesHandler conv h r s).response =
          ⟨200, [("Content-Type", "application/json")],
            Body.list ⟨some (es.toList.map (toEmployeeResponse conv)), total⟩⟩ ∧
        (es.toList.map (toEmployeeResponse conv)).length = es.len ∧
        (∀ (i : Nat) (hi : i < es.toList.length),
          (es.toList.map (toEmployeeResponse conv))[i]? =
            some (toEmployeeResponse conv (es.toList.get ⟨i, hi⟩))) ∧
        (es.toList = [] →
          (ListEmployeesHandler conv h r s).response =
            ⟨200, [("Content-Type", "application/json")], Body.list ⟨some [], total⟩⟩)) ∧
      (∀ es total e, (h.ListEmployees page perPage s).1 = (es, total, some e) →
        (ListEmployeesHandler conv h r s).response = httpError e.Error 500)) ∧
    (∀ (real : Float64 → Float64) (seq : Nat) (path id : String)
        (decoded : Option EmployeeParams),
      (ListEmployeesHandler conv (NewEmployee (postgres real))
        ⟨path, id, "", "", decoded⟩ ⟨[], seq⟩).response =
        ⟨200, [("Content-Type", "application/json")], Body.list ⟨some [], 0⟩⟩) := by
  refine ⟨⟨(match strconv.Atoi r.page with
            | none => 1
            | some page => if page ≤ 0 then 1 else page),
          (match strconv.Atoi r.per_page with
            | none => 10
            | some perPage => if perPage ≤ 0 then 10 else perPage), ?_, ?_, ?_⟩, ?_⟩
  · simp only [ListEmployeesHandler]
    split <;> rfl
  · intro es total hes
    have hresp : (ListEmployeesHandler conv h r s).response =
        ⟨200, [("Content-Type", "application/json")],
          Body.list ⟨some (es.toList.map (toEmployeeResponse conv)), total⟩⟩ := by
      simp only [ListEmployeesHandler]
      split
      · rename_i heq
        rw [heq] at hes
        simp at hes
      · rename_i heq
        rw [heq] at hes
        simp only [Prod.mk.injEq] at hes
        obtain ⟨h1, h2, _⟩ := hes
        subst h1 h2
        simp [fillResponses_eq_map]
    refine ⟨hresp, by simp [Slice.len], ?_, ?_⟩
    · intro i hi
      simp [List.getElem?_eq_getElem, hi]
    · intro hnil
      rw [hresp, hnil]
      rfl
  · intro es total e hes
    simp only [ListEmployeesHandler]
    split
    · rename_i heq
      rw [heq] at hes
      simp only [Prod.mk.injEq, Option.some.injEq] at hes
      obtain ⟨_, _, h3⟩ := hes
      subst h3
      rfl
    · rename_i heq
      rw [heq] at hes
      simp at hes
  · intro real seq path id decoded
    rfl

/-! ### C12 -/

/-- C12 (counterexample).  The salary 18446744073709551616 (two to the power
64, a float64 value) is accepted by `validate`; the displayed salary is the
smallest `int` on amd64, and on no platform does it satisfy
`salary < s + 1`. -/
theorem displayed_salary_beyond_int :
    (EmployeeParams.mk "John Doe" "Engineer"
      (Float64.finite 18446744073709551616)).validate = none ∧
    (toEmployeeResponse amd64
      ⟨1, "John Doe", "Engineer", Float64.finite 18446744073709551616⟩).Salary =
      -9223372036854775808 ∧
    ¬ ∃ conv : Float64 → Int,
      (18446744073709551616 : ℚ) <
        (((toEmployeeResponse conv
          ⟨1, "John Doe", "Engineer", Float64.finite 18446744073709551616⟩).Salary : Int) : ℚ)
          + 1 := by
  refine ⟨by decide, by decide, ?_⟩
  rintro ⟨conv, hc⟩
  have hlt := goInt_lt conv (Float64.finite 18446744073709551616)
  have hq : ((goInt conv (Float64.finite 18446744073709551616) : Int) : ℚ) <
      ((2 : Int) ^ 63 : Int) := by exact_mod_cast hlt
  have hc2 : (18446744073709551616 : ℚ) <
      ((goInt conv (Float64.finite 18446744073709551616) : Int) : ℚ) + 1 := hc
  norm_num at hq hc2
  linarith

/-- C12 (amended).  `toEmployeeResponse` keeps id, name and position, and sets
the salary to `int(e.Salary)`: for a finite salary whose truncation toward
zero fits an `int` it is that truncation, never a rounding (it lies between
zero and the salary, less than one away from it); hence for every finite
salary `0 < salary < 2^63` the displayed salary `s` satisfies
`0 <= s <= salary < s + 1`. -/
theorem toEmployeeResponse_spec (conv : Float64 → Int) (e : Employee) :
    (toEmployeeResponse conv e).ID = e.ID ∧
    (toEmployeeResponse conv e).Name = e.Name ∧
    (toEmployeeResponse conv e).Position = e.Position ∧
    (∀ q, e.Salary = Float64.finite q → -(2 : Int) ^ 63 ≤ Float64.truncQ q →
      Float64.truncQ q < (2 : Int) ^ 63 →
      (toEmployeeResponse conv e).Salary = Float64.truncQ q) ∧
    (∀ q : ℚ, (0 ≤ q → ((Float64.truncQ q : Int) : ℚ) ≤ q ∧ q < (Float64.truncQ q : ℚ) + 1 ∧
        0 ≤ Float64.truncQ q) ∧
      (q < 0 → q ≤ ((Float64.truncQ q : Int) : ℚ) ∧ ((Float64.truncQ q : Int) : ℚ) - 1 < q ∧
        Float64.truncQ q ≤ 0)) ∧
    (∀ q : ℚ, e.Salary = Float64.finite q → 0 < q → q < 2 ^ 63 →
      0 ≤ (toEmployeeResponse conv e).Salary ∧
      (((toEmployeeResponse conv e).Salary : Int) : ℚ) ≤ q ∧
      q < (((toEmployeeResponse conv e).Salary : Int) : ℚ) + 1) := by
  have htr : ∀ q : ℚ, 0 ≤ q → Float64.truncQ q = ⌊q⌋ := by
    intro q hq
    simp [Float64.truncQ, hq]
  have htrn : ∀ q : ℚ, q < 0 → Float64.truncQ q = ⌈q⌉ := by
    intro q hq
    simp [Float64.truncQ, not_le.mpr hq]
  refine ⟨rfl, rfl, rfl, ?_, ?_, ?_⟩
  · intro q hq hlo hhi
    simp only [toEmployeeResponse, hq]
    exact goInt_of_fits conv q hlo hhi
  · intro q
    constructor
    · intro hq
      rw [htr q hq]
      exact ⟨Int.floor_le q, Int.lt_floor_add_one q, Int.floor_nonneg.mpr hq⟩
    · intro hq
      rw [htrn q hq]
      refine ⟨Int.le_ceil q, ?_, ?_⟩
      · have := Int.ceil_lt_add_one q
        linarith
      · exact Int.ceil_le.mpr (by exact_mod_cast le_of_lt hq)
  · intro q hq hpos hlt
    have h0 : (0 : ℚ) ≤ q := le_of_lt hpos
    have hfl : Float64.truncQ q = ⌊q⌋ := htr q h0
    have hnn : 0 ≤ ⌊q⌋ := Int.floor_nonneg.mpr h0
    have hhi : ⌊q⌋ < (2 : Int) ^ 63 := by
      rw [Int.floor_lt]
      exact_mod_cast hlt
    have hs : (toEmployeeResponse conv e).Salary = ⌊q⌋ := by
      simp only [toEmployeeResponse, hq]
      rw [goInt_of_fits conv q (by rw [hfl]; norm_num; omega) (by rw [hfl]; exact hhi), hfl]
    rw [hs]
    exact ⟨hnn, Int.floor_le q, Int.lt_floor_add_one q⟩

/-! ### C13 -/

/-- The row loop on a stream in which every `Scan` succeeds and every row
carries the same `total`. -/
theorem scanRows_ok (l : List Employee) (total : Int) (acc : Slice Employee) (t : Int) :
    scanRows (l.map (fun r => Except.ok (r, total))) acc t =
      .ok (if l = [] then (acc, t) else (some (acc.toList ++ l), total)) := by
  induction l generalizing acc t with
  | nil => rfl
  | cons a rest ih =>
    simp only [List.map_cons, scanRows, ih]
    by_cases hrest : rest = []
    · simp [hrest, Slice.append, Slice.toList]
    · simp [hrest, Slice.append, Slice.toList]

theorem ListEmployees_postgres_page (real : Float64 → Float64) (db : DB)
    (page perPage : Int) (hpage : 1 ≤ page) (hper : 1 ≤ perPage)
    (hfit : (page - 1) * perPage < (2 : Int) ^ 63) :
    (ListEmployees (postgres real) page perPage db).1.1.toList =
      ((db.rows.insertionSort (fun a b => a.ID ≤ b.ID)).drop
        ((page - 1) * perPage).toNat).take perPage.toNat ∧
    (ListEmployees (postgres real) page perPage db).1.2.2 = none ∧
    (ListEmployees (postgres real) page perPage db).2 = db := by
  have hp0 : 0 ≤ page - 1 := by omega
  have hprod : 0 ≤ (page - 1) * perPage := mul_nonneg hp0 (by omega)
  have hle : page - 1 ≤ (page - 1) * perPage := by nlinarith
  have hw1 : wrapInt (page - 1) = page - 1 :=
    wrapInt_of_range _ (by norm_num; omega) (by omega)
  have hw2 : wrapInt ((page - 1) * perPage) = (page - 1) * perPage :=
    wrapInt_of_range _ (by norm_num; omega) hfit
  simp only [ListEmployees, postgres, hw1, hw2]
  rw [if_neg (by omega), if_neg (by omega)]
  simp only [scanRows_ok]
  split_ifs with hnil
  · simp [hnil, Slice.toList]
  · simp [Slice.toList]

theorem sorted_by_id (rows : List Employee) :
    (rows.insertionSort (fun a b => a.ID ≤ b.ID)).Sorted (fun a b => a.ID ≤ b.ID) := by
  haveI : IsTotal Employee (fun a b => a.ID ≤ b.ID) := ⟨fun a b => le_total a.ID b.ID⟩
  haveI : IsTrans Employee (fun a b => a.ID ≤ b.ID) := ⟨fun _ _ _ h1 h2 => le_trans h1 h2⟩
  exact List.sorted_insertionSort _ rows

/-- C13 (counterexample).  For page 4294967297 and perPage 2147483648 the exact
product `(page-1)*perPage` is two to the power 63; the query is issued with
the wrapped offset -9223372036854775808, which the server rejects. -/
theorem offset_wraps_negative :
    ((4294967297 : Int) - 1) * 2147483648 = 9223372036854775808 ∧
    (ListEmployees recorder 4294967297 2147483648 []).2 =
      [(2147483648, -9223372036854775808)] ∧
    (ListEmployees (postgres id) 4294967297 2147483648 oneRow).1 =
      (none, 0, some (Error.sql (.other "OFFSET must not be negative"))) := by
  refine ⟨by decide, by decide, by decide⟩

/-- C13 (amended).  For `page >= 1` and `perPage >= 1` whose exact product
`(page-1)*perPage` is below two to the power 63, `ListEmployees` issues one
query, with `LIMIT = perPage` and `OFFSET = (page-1)*perPage`, which is not
negative; on a healthy server the call succeeds and its rows are in ascending
order of id. -/
theorem list_limit_offset (real : Float64 → Float64) (db : DB) (page perPage : Int)
    (hpage : 1 ≤ page) (hper : 1 ≤ perPage)
    (hfit : (page - 1) * perPage < (2 : Int) ^ 63) :
    (ListEmployees recorder page perPage []).2 = [(perPage, (page - 1) * perPage)] ∧
    0 ≤ (page - 1) * perPage ∧
    (∀ (σ : Type) (d : Driver σ) (s : σ),
      (ListEmployees d page perPage s).2 =
        (d.queryList perPage ((page - 1) * perPage) s).2) ∧
    (ListEmployees (postgres real) page perPage db).1.2.2 = none ∧
    ((ListEmployees (postgres real) page perPage db).1.1.toList).Sorted
      (fun a b => a.ID ≤ b.ID) := by
  have hp0 : 0 ≤ page - 1 := by omega
  have hprod : 0 ≤ (page - 1) * perPage := mul_nonneg hp0 (by omega)
  have hle : page - 1 ≤ (page - 1) * perPage := by nlinarith
  have hw1 : wrapInt (page - 1) = page - 1 :=
    wrapInt_of_range _ (by norm_num; omega) (by omega)
  have hw2 : wrapInt ((page - 1) * perPage) = (page - 1) * perPage :=
    wrapInt_of_range _ (by norm_num; omega) hfit
  obtain ⟨hlist, herr, _⟩ := ListEmployees_postgres_page real db page perPage hpage hper hfit
  refine ⟨?_, hprod, ?_, herr, ?_⟩
  · simp [ListEmployees, recorder, hw1, hw2, scanRows]
  · intro σ d s
    simp only [ListEmployees, hw1, hw2]
    rcases hq : d.queryList perPage ((page - 1) * perPage) s with ⟨res, s1⟩
    rcases res with e | rows
    · rfl
    · simp only
      split <;> rfl
  · rw [hlist]
    exact ((sorted_by_id db.rows).sublist (List.drop_sublist _ _)).sublist
      (List.take_sublist _ _)

/-- C13 (witness): page 1 of size 10 on the one-row table, as in the test. -/
theorem list_limit_offset_witness :
    (ListEmployees recorder 1 10 []).2 = [(10, 0)] ∧
    (ListEmployees (postgres id) 1 10 oneRow).1.2.2 = none :=
  have key := list_limit_offset id oneRow 1 10 (by decide) (by decide) (by decide)
  ⟨key.1, key.2.2.2.1⟩


/-! ### C14 -/

theorem mem_take_of_mem_window {α : Type} (l : List α) (a n b : Nat) (hab : a + n ≤ b)
    (x : α) (hx : x ∈ (l.drop a).take n) : x ∈ l.take b := by
  have h1 : x ∈ l.take (a + n) := by
    rw [List.take_add]
    exact List.mem_append_right _ hx
  have h2 : l.take (a + n) = (l.take b).take (a + n) := by
    rw [List.take_take, Nat.min_eq_left hab]
  rw [h2] at h1
  exact List.mem_of_mem_take h1

theorem window_disjoint {α : Type} (l : List α) (hl : l.Nodup) (a n b m : Nat)
    (hab : a + n ≤ b) : List.Disjoint ((l.drop a).take n) ((l.drop b).take m) := by
  intro x hx hy
  exact List.disjoint_take_drop hl (le_refl b) (mem_take_of_mem_window l a n b hab x hx)
    (List.mem_of_mem_take hy)

theorem flatten_windows {α : Type} (l : List α) (n k : Nat) :
    ((List.range k).map (fun i => (l.drop (i * n)).take n)).flatten = l.take (k * n) := by
  induction k with
  | zero => simp
  | succ k ih =>
    rw [List.range_succ, List.map_append, List.flatten_append, ih, Nat.succ_mul, List.take_add]
    simp

theorem nodup_sorted_rows (rows : List Employee) (h : (rows.map (fun r => r.ID)).Nodup) :
    (rows.insertionSort (fun a b => a.ID ≤ b.ID)).Nodup :=
  (List.perm_insertionSort _ rows).nodup_iff.mpr (List.Nodup.of_map _ h)

theorem page_window (real : Float64 → Float64) (db : DB) (n : Nat) (hn : 1 ≤ n) (i : Nat)
    (hfit : (i : Int) * (n : Int) < (2 : Int) ^ 63) :
    (ListEmployees (postgres real) ((i : Int) + 1) (n : Int) db).1.1.toList =
      ((db.rows.insertionSort (fun a b => a.ID ≤ b.ID)).drop (i * n)).take n := by
  have h := (ListEmployees_postgres_page real db ((i : Int) + 1) (n : Int) (by omega)
    (by exact_mod_cast hn) (by simpa using hfit)).1
  rw [h]
  have h1 : (((i : Int) + 1 - 1) * (n : Int)).toNat = i * n := by
    have : ((i : Int) + 1 - 1) * (n : Int) = ((i * n : Nat) : Int) := by push_cast; ring
    rw [this, Int.toNat_natCast]
  rw [h1, Int.toNat_natCast]

/-- C14 (counterexample).  On the one-row table with page size 4, page 1 and
page 4611686018427387905 return the same row: the offset of the latter,
`(page-1)*4`, is two to the power 64 and wraps to 0. -/
theorem pages_overlap_after_wrap :
    ((4611686018427387905 : Int) - 1) * 4 = 18446744073709551616 ∧
    (ListEmployees (postgres id) 1 4 oneRow).1.1 =
      some [⟨1, "John Doe", "Engineer", Float64.finite 50000⟩] ∧
    (ListEmployees (postgres id) 4611686018427387905 4 oneRow).1.1 =
      some [⟨1, "John Doe", "Engineer", Float64.finite 50000⟩] ∧
    ¬ List.Disjoint (ListEmployees (postgres id) 1 4 oneRow).1.1.toList
      (ListEmployees (postgres id) 4611686018427387905 4 oneRow).1.1.toList := by
  have h1 : (ListEmployees (postgres id) 1 4 oneRow).1.1 =
      some [⟨1, "John Doe", "Engineer", Float64.finite 50000⟩] := by decide
  have h2 : (ListEmployees (postgres id) 4611686018427387905 4 oneRow).1.1 =
      some [⟨1, "John Doe", "Engineer", Float64.finite 50000⟩] := by decide
  refine ⟨by decide, h1, h2, ?_⟩
  intro hd
  rw [h1, h2] at hd
  exact hd (List.mem_singleton.mpr rfl) (List.mem_singleton.mpr rfl)

/-- C14 (amended).  For a table whose ids are distinct and a page size
`N >= 1`, over the pages whose offset `(page-1)*N` is below two to the power
63: every page is in ascending order of id and has at most `N` rows, two
different pages are disjoint, and the pages 1 to `k` concatenated are the
first `min(k*N, number of rows)` rows of the table in ascending order of id. -/
theorem pages_partition (real : Float64 → Float64) (db : DB) (N : Int) (hN : 1 ≤ N)
    (hids : (db.rows.map (fun r => r.ID)).Nodup) :
    (db.rows.insertionSort (fun a b => a.ID ≤ b.ID)).Sorted (fun a b => a.ID ≤ b.ID) ∧
    (db.rows.insertionSort (fun a b => a.ID ≤ b.ID)).Perm db.rows ∧
    (∀ p : Int, 1 ≤ p → (p - 1) * N < (2 : Int) ^ 63 →
      ((ListEmployees (postgres real) p N db).1.1.toList).Sorted (fun a b => a.ID ≤ b.ID) ∧
      (((ListEmployees (postgres real) p N db).1.1.toList).length : Int) ≤ N) ∧
    (∀ p q : Int, 1 ≤ p → p < q → (q - 1) * N < (2 : Int) ^ 63 →
      List.Disjoint (ListEmployees (postgres real) p N db).1.1.toList
        (ListEmployees (postgres real) q N db).1.1.toList) ∧
    (∀ k : Nat, ((k : Int) - 1) * N < (2 : Int) ^ 63 →
      ((List.range k).map
        (fun (i : Nat) => (ListEmployees (postgres real) ((i : Int) + 1) N db).1.1.toList)).flatten =
        (db.rows.insertionSort (fun a b => a.ID ≤ b.ID)).take (k * N.toNat) ∧
      ((List.range k).map
        (fun (i : Nat) => (ListEmployees (postgres real) ((i : Int) + 1) N db).1.1.toList)).flatten.length
        = min (k * N.toNat) db.rows.length) := by
  obtain ⟨n, rfl⟩ := Int.eq_ofNat_of_zero_le (show (0 : Int) ≤ N by omega)
  have hn : 1 ≤ n := by exact_mod_cast hN
  have hpos : (0 : Int) < (n : Int) := by omega
  have hsorted := sorted_by_id db.rows
  refine ⟨hsorted, List.perm_insertionSort _ _, ?_, ?_, ?_⟩
  · intro p hp hfit
    obtain ⟨i, rfl⟩ : ∃ i : Nat, p = (i : Int) + 1 := ⟨(p - 1).toNat, by omega⟩
    rw [page_window real db n hn i (by simpa using hfit)]
    refine ⟨(hsorted.sublist (List.drop_sublist _ _)).sublist (List.take_sublist _ _), ?_⟩
    have := List.length_take_le n ((db.rows.insertionSort (fun a b => a.ID ≤ b.ID)).drop (i * n))
    exact_mod_cast this
  · intro p q hp hpq hfit
    obtain ⟨i, rfl⟩ : ∃ i : Nat, p = (i : Int) + 1 := ⟨(p - 1).toNat, by omega⟩
    obtain ⟨j, rfl⟩ : ∃ j : Nat, q = (j : Int) + 1 := ⟨(q - 1).toNat, by omega⟩
    have hij : i < j := by omega
    have hfitj : (j : Int) * (n : Int) < (2 : Int) ^ 63 := by simpa using hfit
    have hfiti : (i : Int) * (n : Int) < (2 : Int) ^ 63 := by
      have : (i : Int) * (n : Int) ≤ (j : Int) * (n : Int) :=
        mul_le_mul_of_nonneg_right (by exact_mod_cast le_of_lt hij) (le_of_lt hpos)
      omega
    rw [page_window real db n hn i hfiti, page_window real db n hn j hfitj]
    apply window_disjoint _ (nodup_sorted_rows db.rows hids)
    calc i * n + n = (i + 1) * n := by ring
      _ ≤ j * n := Nat.mul_le_mul_right n hij
  · intro k hfit
    have hpages : (List.range k).map
        (fun (i : Nat) => (ListEmployees (postgres real) ((i : Int) + 1) (n : Int) db).1.1.toList) =
        (List.range k).map
          (fun i => ((db.rows.insertionSort (fun a b => a.ID ≤ b.ID)).drop (i * n)).take n) := by
      apply List.map_congr_left
      intro i hi
      have hik : i < k := List.mem_range.mp hi
      apply page_window real db n hn i
      have : (i : Int) * (n : Int) ≤ ((k : Int) - 1) * (n : Int) :=
        mul_le_mul_of_nonneg_right (by omega) (le_of_lt hpos)
      omega
    rw [hpages, flatten_windows, Int.toNat_natCast]
    refine ⟨rfl, ?_⟩
    rw [List.length_take, List.length_insertionSort]

/-- C14 (witness): page size 2 on a table of five rows stored out of order.
The three pages hold the ids 1, 2, then 3, 4, then 5; pages 1 and 2 are
disjoint, page 2 is in ascending order of id, and the three pages
concatenated are the whole table in ascending order of id. -/
theorem pages_partition_witness :
    (fiveRows.rows.map (fun r => r.ID)).Nodup ∧
    (ListEmployees (postgres id) 1 2 fiveRows).1.1.toList =
      [⟨1, "Al", "Engineer", Float64.finite 50000⟩, ⟨2, "Bo", "Manager", Float64.finite 70000⟩] ∧
    (ListEmployees (postgres id) 2 2 fiveRows).1.1.toList =
      [⟨3, "Cy", "Clerk", Float64.finite 30000⟩, ⟨4, "Di", "Director", Float64.finite 90000⟩] ∧
    (ListEmployees (postgres id) 3 2 fiveRows).1.1.toList =
      [⟨5, "Ed", "Analyst", Float64.finite 45000⟩] ∧
    List.Disjoint (ListEmployees (postgres id) 1 2 fiveRows).1.1.toList
      (ListEmployees (postgres id) 2 2 fiveRows).1.1.toList ∧
    ((ListEmployees (postgres id) 2 2 fiveRows).1.1.toList).Sorted (fun a b => a.ID ≤ b.ID) ∧
    ((List.range 3).map
      (fun (i : Nat) => (ListEmployees (postgres id) ((i : Int) + 1) 2 fiveRows).1.1.toList)).flatten =
      (fiveRows.rows.insertionSort (fun a b => a.ID ≤ b.ID)).take (3 * (2 : Int).toNat) ∧
    ((List.range 3).map
      (fun (i : Nat) =>
        (ListEmployees (postgres id) ((i : Int) + 1) 2 fiveRows).1.1.toList)).flatten.length =
      min (3 * (2 : Int).toNat) fiveRows.rows.length :=
  have key := pages_partition id fiveRows 2 (by decide) (by decide)
  ⟨by decide, by decide, by decide, by decide,
    key.2.2.2.1 1 2 (by decide) (by decide) (by decide),
    (key.2.2.1 2 (by decide) (by decide)).1,
    (key.2.2.2.2 3 (by decide)).1, (key.2.2.2.2 3 (by decide)).2⟩

/-! ### C15 -/

theorem singleExponent_eq (a : ℚ) (k : Nat) :
    ∀ (e0 : Int) (fuel : Nat), k < fuel → (2 : ℚ) ^ (e0 + k) ≤ a → a < (2 : ℚ) ^ (e0 + k + 1) →
      singleExponent a fuel e0 = e0 + k := by
  induction k with
  | zero =>
    intro e0 fuel hf _ hhi
    obtain ⟨f, rfl⟩ : ∃ f, fuel = f + 1 := ⟨fuel - 1, by omega⟩
    simp only [Nat.cast_zero, add_zero] at hhi ⊢
    simp [singleExponent, hhi]
  | succ k ih =>
    intro e0 fuel hf hlo hhi
    obtain ⟨f, rfl⟩ : ∃ f, fuel = f + 1 := ⟨fuel - 1, by omega⟩
    have hmono : (2 : ℚ) ^ (e0 + 1) ≤ (2 : ℚ) ^ (e0 + ((k + 1 : Nat) : Int)) :=
      zpow_le_zpow_right₀ (by norm_num) (by push_cast; omega)
    have hnot : ¬ a < (2 : ℚ) ^ (e0 + 1) := not_lt.mpr (le_trans hmono hlo)
    have hlo2 : (2 : ℚ) ^ (e0 + 1 + (k : Int)) ≤ a := by
      have : e0 + 1 + (k : Int) = e0 + ((k + 1 : Nat) : Int) := by push_cast; ring
      rw [this]; exact hlo
    have hhi2 : a < (2 : ℚ) ^ (e0 + 1 + (k : Int) + 1) := by
      have : e0 + 1 + (k : Int) + 1 = e0 + ((k + 1 : Nat) : Int) + 1 := by push_cast; ring
      rw [this]; exact hhi
    simp only [singleExponent, hnot, if_false]
    rw [ih (e0 + 1) f (by omega) hlo2 hhi2]
    push_cast
    ring

theorem real4_33554433 : real4 (Float64.finite 33554433) = Float64.finite 33554432 := by
  have he : singleExponent |(33554433 : ℚ)| 254 (-126) = 25 := by
    have h := singleExponent_eq |(33554433 : ℚ)| 151 (-126) 254 (by norm_num)
      (by rw [abs_of_pos (by norm_num)]; norm_num)
      (by rw [abs_of_pos (by norm_num)]; norm_num)
    rw [h]; norm_num
  have hfl : ⌊(33554433 : ℚ) / 4⌋ = 8388608 := by
    rw [Int.floor_eq_iff]; constructor <;> norm_num
  have hr : roundHalfEven ((33554433 : ℚ) / 4) = 8388608 := by
    unfold roundHalfEven
    rw [hfl]
    norm_num
  have habs : |(33554433 : ℚ)| = 33554433 := abs_of_pos (by norm_num)
  simp only [real4, he]
  rw [habs]
  norm_num [hr]

theorem find_appended_row (rows : List Employee) (row : Employee)
    (h : ∀ r ∈ rows, r.ID ≠ row.ID) :
    (rows ++ [row]).find? (fun r => decide (r.ID = row.ID)) = some row := by
  rw [List.find?_append, find_absent_id rows row.ID h]
  simp

/-- C15 (counterexample).  On the empty table, creating an employee with the
salary 33554433 (a float64 value) succeeds with id 1, and the following
`GetEmployeeByID(1)` succeeds and returns the salary 33554432: the column
`salary REAL` holds single-precision values. -/
theorem created_salary_not_read_back :
    (CreateEmployee (postgres real4) ⟨0, "John Doe", "Engineer", Float64.finite 33554433⟩
      ⟨[], 0⟩).1 = (⟨1, "John Doe", "Engineer", Float64.finite 33554433⟩, none) ∧
    (GetEmployeeByID (postgres real4) 1
      (CreateEmployee (postgres real4) ⟨0, "John Doe", "Engineer", Float64.finite 33554433⟩
        ⟨[], 0⟩).2).1 = (⟨1, "John Doe", "Engineer", Float64.finite 33554432⟩, none) := by
  constructor
  · rfl
  · have hstate : (CreateEmployee (postgres real4)
        ⟨0, "John Doe", "Engineer", Float64.finite 33554433⟩ ⟨[], 0⟩).2 =
        ⟨[⟨1, "John Doe", "Engineer", real4 (Float64.finite 33554433)⟩], 1⟩ := rfl
    rw [hstate, real4_33554433]
    rfl

/-- C15 (amended).  On a healthy server, for every table and every payload, a
successful `CreateEmployee` returns an employee whose id is positive and was
not the id of any stored row, and whose name, position and salary are the
submitted ones; a following `GetEmployeeByID` with that id succeeds and
returns that id, the same name and position, and the salary as the `REAL`
column holds it, which is the submitted salary whenever the conversion to
`REAL` leaves it unchanged. -/
theorem create_then_get (real : Float64 → Float64) (db db1 : DB) (e emp : Employee)
    (hcreate : CreateEmployee (postgres real) e db = ((emp, none), db1)) :
    0 < emp.ID ∧
    (∀ r ∈ db.rows, r.ID ≠ emp.ID) ∧
    emp.Name = e.Name ∧ emp.Position = e.Position ∧ emp.Salary = e.Salary ∧
    GetEmployeeByID (postgres real) emp.ID db1 =
      ((⟨emp.ID, e.Name, e.Position, real e.Salary⟩, none), db1) ∧
    (real e.Salary = e.Salary →
      GetEmployeeByID (postgres real) emp.ID db1 = ((emp, none), db1)) := by
  simp only [CreateEmployee, postgres] at hcreate
  by_cases hdup : (db.rows.any (fun r => decide (r.ID = (db.seq : Int) + 1))) = true
  · simp [hdup] at hcreate
  · simp only [hdup] at hcreate
    simp only [Bool.false_eq_true, if_false, Prod.mk.injEq, and_true] at hcreate
    obtain ⟨hemp, hdb⟩ := hcreate
    subst hemp hdb
    have hfresh : ∀ r ∈ db.rows, r.ID ≠ (db.seq : Int) + 1 := by
      intro r hr heq
      apply hdup
      rw [List.any_eq_true]
      exact ⟨r, hr, by simpa using heq⟩
    have hfind := find_appended_row db.rows
      ⟨(db.seq : Int) + 1, e.Name, e.Position, real e.Salary⟩ hfresh
    have hget : GetEmployeeByID (postgres real) ((db.seq : Int) + 1)
        ⟨db.rows ++ [⟨(db.seq : Int) + 1, e.Name, e.Position, real e.Salary⟩], db.seq + 1⟩ =
        ((⟨(db.seq : Int) + 1, e.Name, e.Position, real e.Salary⟩, none),
          ⟨db.rows ++ [⟨(db.seq : Int) + 1, e.Name, e.Position, real e.Salary⟩],
            db.seq + 1⟩) := by
      simp only [GetEmployeeByID, postgres]
      rw [hfind]
    refine ⟨by show (0 : Int) < (db.seq : Int) + 1; omega, hfresh, rfl, rfl, rfl, hget, ?_⟩
    intro hreal
    rw [hget, hreal]

/-- C15 (witness): the test case "Successful Insert" on the one-row table. -/
theorem create_then_get_witness :
    CreateEmployee (postgres id) ⟨0, "Jane Roe", "Manager", Float64.finite 70000⟩ oneRow =
      ((⟨2, "Jane Roe", "Manager", Float64.finite 70000⟩, none),
        ⟨[⟨1, "John Doe", "Engineer", Float64.finite 50000⟩,
          ⟨2, "Jane Roe", "Manager", Float64.finite 70000⟩], 2⟩) ∧
    GetEmployeeByID (postgres id) 2
      ⟨[⟨1, "John Doe", "Engineer", Float64.finite 50000⟩,
        ⟨2, "Jane Roe", "Manager", Float64.finite 70000⟩], 2⟩ =
      ((⟨2, "Jane Roe", "Manager", Float64.finite 70000⟩, none),
        ⟨[⟨1, "John Doe", "Engineer", Float64.finite 50000⟩,
          ⟨2, "Jane Roe", "Manager", Float64.finite 70000⟩], 2⟩) :=
  ⟨rfl, (create_then_get id oneRow _ ⟨0, "Jane Roe", "Manager", Float64.finite 70000⟩
    ⟨2, "Jane Roe", "Manager", Float64.finite 70000⟩ rfl).2.2.2.2.2.1⟩

/-! ### C16 -/

theorem UpdateEmployee_postgres (real : Float64 → Float64) (e : Employee) (db : DB) :
    UpdateEmployee (postgres real) e db =
      (if db.count e.ID = 0 then some Error.notFound else none,
        { db with rows := db.rows.map (fun r =>
            if r.ID = e.ID then ⟨r.ID, e.Name, e.Position, real e.Salary⟩ else r) }) := by
  simp only [UpdateEmployee, postgres]
  split_ifs <;> rfl

theorem updated_rows_ids (real : Float64 → Float64) (e : Employee) (rows : List Employee) :
    (rows.map (fun r =>
      if r.ID = e.ID then (⟨r.ID, e.Name, e.Position, real e.Salary⟩ : Employee) else r)).map
      (fun r => r.ID) = rows.map (fun r => r.ID) := by
  rw [List.map_map]
  apply List.map_congr_left
  intro r _
  simp only [Function.comp]
  split_ifs <;> rfl

theorem updated_rows_count (real : Float64 → Float64) (e : Employee) (db : DB) :
    DB.count { db with rows := db.rows.map (fun r =>
      if r.ID = e.ID then ⟨r.ID, e.Name, e.Position, real e.Salary⟩ else r) } e.ID =
      db.count e.ID := by
  simp only [DB.count, List.filter_map, List.length_map]
  congr 2
  apply List.filter_congr
  intro r _
  simp only [Function.comp]
  split_ifs <;> rfl

/-- C16.  On a healthy server `UpdateEmployee` is idempotent: for every table
and every payload, applying it a second time returns the same result and
leaves the same table as applying it once.  An update leaves the sequence
and the id of every row as they were, in the same order, leaves every row
with another id untouched, and sets name, position and salary of the rows
with the id of the payload. -/
theorem update_idempotent (real : Float64 → Float64) (e : Employee) (db : DB) :
    UpdateEmployee (postgres real) e (UpdateEmployee (postgres real) e db).2 =
      UpdateEmployee (postgres real) e db ∧
    (UpdateEmployee (postgres real) e db).2.seq = db.seq ∧
    (UpdateEmployee (postgres real) e db).2.rows.map (fun r => r.ID) =
      db.rows.map (fun r => r.ID) ∧
    (∀ i : Nat, (UpdateEmployee (postgres real) e db).2.rows[i]? =
      (db.rows[i]?).map (fun r =>
        if r.ID = e.ID then ⟨e.ID, e.Name, e.Position, real e.Salary⟩ else r)) ∧
    (∀ r ∈ db.rows, r.ID ≠ e.ID → r ∈ (UpdateEmployee (postgres real) e db).2.rows) := by
  refine ⟨?_, ?_, ?_, ?_, ?_⟩
  · rw [UpdateEmployee_postgres real e db, UpdateEmployee_postgres real e]
    simp only [updated_rows_count]
    congr 2
    rw [List.map_map]
    apply List.map_congr_left
    intro r _
    simp only [Function.comp]
    split_ifs <;> simp_all
  · rw [UpdateEmployee_postgres]
  · rw [UpdateEmployee_postgres]
    exact updated_rows_ids real e db.rows
  · intro i
    rw [UpdateEmployee_postgres]
    simp only [List.getElem?_map]
    cases db.rows[i]? with
    | none => rfl
    | some r =>
      simp only [Option.map_some']
      split_ifs with h
      · rw [h]
      · rfl
  · intro r hr hne
    rw [UpdateEmployee_postgres]
    simp only [List.mem_map]
    exact ⟨r, hr, by simp [hne]⟩

/-! ### C17 -/

theorem DeleteEmployee_postgres (real : Float64 → Float64) (id : Int) (db : DB) :
    DeleteEmployee (postgres real) id db =
      (if db.count id = 0 then some Error.notFound else none,
        { db with rows := db.rows.filter (fun r => !decide (r.ID = id)) }) := by
  simp only [DeleteEmployee, postgres]
  split_ifs <;> rfl

theorem find_after_delete (rows : List Employee) (id other : Int) (h : other ≠ id) :
    (rows.filter (fun r => !decide (r.ID = id))).find? (fun r => decide (r.ID = other)) =
      rows.find? (fun r => decide (r.ID = other)) := by
  induction rows with
  | nil => rfl
  | cons a t ih =>
    by_cases ha : a.ID = id
    · have hne : a.ID ≠ other := fun hx => h (hx ▸ ha)
      have hp : (!decide (a.ID = id)) = false := by simp [ha]
      have hq : decide (a.ID = other) = false := by simp [hne]
      simp only [List.filter_cons, List.find?_cons, hp, hq, Bool.false_eq_true, if_false]
      exact ih
    · have hp : (!decide (a.ID = id)) = true := by simp [ha]
      simp only [List.filter_cons, hp, if_true, List.find?_cons]
      cases decide (a.ID = other) with
      | true => rfl
      | false => exact ih

theorem get_handler_404 {σ : Type} (conv : Float64 → Int) (h : EmployeeDB σ) (r : Request)
    (s : σ) (id : Int) (hid : strconv.Atoi r.id = some id) (hpos : 0 < id)
    (herr : (h.GetEmployeeByID id s).1.2 ≠ none) :
    (GetEmployeeHandler conv h r s).response = httpError "Employee not found" 404 := by
  rcases hg : h.GetEmployeeByID id s with ⟨⟨e, err⟩, s1⟩
  rw [hg] at herr
  cases err with
  | none => exact absurd rfl herr
  | some e1 => simp [GetEmployeeHandler, hid, not_le.mpr hpos, hg]

/-- C17.  On a healthy server, after a successful `DeleteEmployee(id)` a
`GetEmployeeByID(id)` returns the "employee not found" error and the Get
handler answers 404 "Employee not found" for that id, while
`GetEmployeeByID` of every other id returns what it returned before: the
remaining rows are the stored rows with another id, unchanged. -/
theorem delete_then_get (real : Float64 → Float64) (db db1 : DB) (id : Int)
    (hdel : DeleteEmployee (postgres real) id db = (none, db1)) :
    (GetEmployeeByID (postgres real) id db1).1.2 = some Error.notFound ∧
    (∀ (conv : Float64 → Int) (r : Request), strconv.Atoi r.id = some id → 0 < id →
      (GetEmployeeHandler conv (NewEmployee (postgres real)) r db1).response =
        httpError "Employee not found" 404) ∧
    (∀ other : Int, other ≠ id →
      (GetEmployeeByID (postgres real) other db1).1 =
        (GetEmployeeByID (postgres real) other db).1) ∧
    (∀ r : Employee, r ∈ db1.rows ↔ (r ∈ db.rows ∧ r.ID ≠ id)) ∧
    db1.seq = db.seq := by
  rw [DeleteEmployee_postgres] at hdel
  simp only [Prod.mk.injEq] at hdel
  obtain ⟨_, hdb⟩ := hdel
  subst hdb
  have habsent : ∀ r ∈ db.rows.filter (fun r => !decide (r.ID = id)), r.ID ≠ id := by
    intro r hr
    simpa using (List.mem_filter.mp hr).2
  have hfind := find_absent_id _ id habsent
  have hget : (GetEmployeeByID (postgres real) id
      { db with rows := db.rows.filter (fun r => !decide (r.ID = id)) }).1.2 =
      some Error.notFound := by
    simp [GetEmployeeByID, postgres, hfind]
  refine ⟨hget, ?_, ?_, ?_, rfl⟩
  · intro conv r hid hpos
    apply get_handler_404 conv (NewEmployee (postgres real)) r _ id hid hpos
    show (GetEmployeeByID (postgres real) id _).1.2 ≠ none
    rw [hget]
    simp
  · intro other hne
    simp only [GetEmployeeByID, postgres]
    rw [find_after_delete db.rows id other hne]
    cases List.find? (fun r => decide (r.ID = other)) db.rows <;> rfl
  · intro r
    simp [List.mem_filter]

/-- C17 (witness): deleting id 1 from the one-row table. -/
theorem delete_then_get_witness :
    DeleteEmployee (postgres id) 1 oneRow = (none, ⟨[], 1⟩) ∧
    (GetEmployeeByID (postgres id) 1 ⟨[], 1⟩).1.2 = some Error.notFound :=
  ⟨rfl, (delete_then_get id oneRow ⟨[], 1⟩ 1 rfl).1⟩


/-! ### C18 -/

theorem scanRows_all_ok (vs : List (Employee × Int)) (acc : Slice Employee) (t : Int) :
    scanRows (vs.map (fun v => Except.ok v)) acc t =
      .ok (if vs = [] then (acc, t)
        else (some (acc.toList ++ vs.map (fun v => v.1)), (vs.getLast?.map (fun v => v.2)).getD t)) := by
  induction vs generalizing acc t with
  | nil => rfl
  | cons v rest ih =>
    obtain ⟨emp, tot⟩ := v
    simp only [List.map_cons, scanRows, ih]
    by_cases hrest : rest = []
    · simp [hrest, Slice.append, Slice.toList]
    · simp [hrest, Slice.append, Slice.toList, List.getLast?_cons_cons,
        List.getLast?_cons]
      cases hl : rest.getLast? with
      | none => exact absurd (List.getLast?_eq_none_iff.mp hl) hrest
      | some w => simp

theorem scanRows_first_error (vs : List (Employee × Int)) (e : SqlError)
    (rest : List (Except SqlError (Employee × Int))) (acc : Slice Employee) (t : Int) :
    scanRows (vs.map (fun v => Except.ok v) ++ Except.error e :: rest) acc t = .error e := by
  induction vs generalizing acc t with
  | nil => rfl
  | cons v more ih =>
    obtain ⟨emp, tot⟩ := v
    simp only [List.map_cons, List.cons_append, scanRows]
    exact ih _ _

/-- C18 (the code on each kind of failure).  When `Query` fails, and when a
`Scan` fails, `ListEmployees` returns the nil slice, total 0 and the error.
When every `Scan` succeeds and the iteration over the rows fails
(`rows.Err()` holds an error after `Next` has reported false), it returns no
error, together with the rows scanned so far: `rows.Err()` is never read. -/
theorem list_failures {σ : Type} (d : Driver σ) (page perPage : Int) (s s1 : σ) :
    (∀ e, d.queryList perPage (wrapInt (wrapInt (page - 1) * perPage)) s = (.error e, s1) →
      ListEmployees d page perPage s = ((none, 0, some (Error.sql e)), s1)) ∧
    (∀ (vs : List (Employee × Int)) e rest err,
      d.queryList perPage (wrapInt (wrapInt (page - 1) * perPage)) s =
        (.ok ⟨vs.map (fun v => Except.ok v) ++ Except.error e :: rest, err⟩, s1) →
      ListEmployees d page perPage s = ((none, 0, some (Error.sql e)), s1)) ∧
    (∀ (vs : List (Employee × Int)) e,
      d.queryList perPage (wrapInt (wrapInt (page - 1) * perPage)) s =
        (.ok ⟨vs.map (fun v => Except.ok v), some e⟩, s1) →
      (ListEmployees d page perPage s).1.2.2 = none ∧
      (ListEmployees d page perPage s).1.1.toList = vs.map (fun v => v.1)) := by
  refine ⟨?_, ?_, ?_⟩
  · intro e hq
    simp only [ListEmployees, hq]
  · intro vs e rest err hq
    simp only [ListEmployees, hq, scanRows_first_error]
  · intro vs e hq
    simp only [ListEmployees, hq, scanRows_all_ok]
    by_cases hvs : vs = []
    · simp [hvs, Slice.toList]
    · simp [hvs, Slice.toList]

/-- C18 (evaluation): one row of two is delivered, then the stream breaks; the
result is that one row, the total 2 and no error. -/
theorem list_failures_witness :
    (brokenStream.queryList 10 0 ()).1 =
      .ok ⟨[.ok (⟨1, "John Doe", "Engineer", Float64.finite 50000⟩, 2)],
        some (.other "unexpected EOF")⟩ ∧
    ListEmployees brokenStream 1 10 () =
      ((some [⟨1, "John Doe", "Engineer", Float64.finite 50000⟩], 2, none), ()) ∧
    (ListEmployees brokenStream 1 10 ()).1.2.2 = none :=
  ⟨rfl, rfl, ((list_failures brokenStream 1 10 () ()).2.2
    [(⟨1, "John Doe", "Engineer", Float64.finite 50000⟩, 2)] (.other "unexpected EOF") rfl).1⟩


end EmployeeManager
